import Mathlib

/-!
Shallow embedding of tig's view-drawing core (src/draw.c) and proofs about it.

The embedding follows the C source function by function.  Machine `int`
arithmetic is modelled with `Int` where values can go negative (`max_len`,
`VIEW_MAX_LEN`, padding computations) and with `Nat` where the source only
ever holds non-negative values (`view->col`, widths).  Cell writes into the
curses window are recorded in an append-only list `View.win`; `wnoutrefresh`
calls are counted in `View.refreshes`; the rows actually painted by
`draw_view_line` are recorded, in order, in the ghost list `View.painted`.

External helpers that live in the repository outside of src/ (the UTF-8
width engine, tab expansion, formatters) are modelled from the spec; each
such definition carries a doc comment starting with `Modelled from the
spec:`.  In this model every character occupies exactly one display column
(the spec's Width Engine is specified in display columns).  The embedding
fixes the output character encoding to `ICONV_NONE` (the default
configuration), so the `encoding_iconv` branch of `draw_chars` is elided.
-/

namespace Tig

/-- Subset of tig's `enum line_type` used by draw.c, plus the graph palette. -/
inductive LineType where
  | NONE
  | DEFAULT
  | CURSOR
  | DELIMITER
  | DATE
  | AUTHOR
  | MODE
  | ID
  | FILE_SIZE
  | LINE_NUMBER
  | DIRECTORY
  | FILE
  | OVERFLOW
  | GRAPH_COMMIT
  | PALETTE (i : Fin 7)
  | REF (n : Nat)
deriving DecidableEq

/-- One character cell written to the curses window: either a text character
(`waddnstr`/`waddch` on a string) or a raw graphic `chtype` (`waddch` on a
`chtype`), each tagged with the semantic line type in effect. -/
inductive Cell where
  | ch (type : LineType) (c : Char)
  | graph (type : LineType) (g : Nat)
deriving DecidableEq

/-- The view position (`view->pos`): vertical offset, cursor line, and the
horizontal scroll column. -/
structure Pos where
  offset : Nat
  lineno : Nat
  col : Nat
deriving DecidableEq

/-- One materialized row (`struct line`), restricted to the fields draw.c
reads or writes. -/
structure Line where
  type : LineType
  dirty : Bool
  cleareol : Bool
  selected : Bool
deriving DecidableEq

/-- Default `Line` used with `List.getD`; accesses are always guarded by a
bounds check mirroring the C code's `view->lines` comparison. -/
def dfltLine : Line :=
  { type := LineType.DEFAULT, dirty := false, cleareol := false, selected := false }

/-- The view state (`struct view`) as used by draw.c, together with the
observable render log: `win` records cell writes, `refreshes` counts
`wnoutrefresh` calls, and `painted` records (ghost) which rows
`draw_view_line` actually painted. -/
structure View where
  width : Nat
  height : Nat
  pos : Pos
  col : Nat
  digits : Nat
  curtype : LineType
  curlineSelected : Bool
  line : List Line
  win : List Cell
  refreshes : Nat
  painted : List Nat
deriving DecidableEq

/-- Field alignment (`enum align`). -/
inductive Align where
  | LEFT
  | RIGHT
deriving DecidableEq

/-- Graph rendering strategy; the order matches the `fns[]` table indexed by
`opt_line_graphics` (0 = ascii, 1 = chtype, 2 = utf8). -/
inductive GraphicsMode where
  | ascii
  | chtype
  | utf8
deriving DecidableEq

/-- Date display mode (`DATE_NO`, `DATE_SHORT`, long/default). -/
inductive DateMode where
  | no
  | short
  | long
deriving DecidableEq

/-- Author display mode (`AUTHOR_NO` versus any displayed form). -/
inductive AuthorMode where
  | no
  | full
  | abbreviated
deriving DecidableEq

/-- Filename display mode (`FILENAME_NO`, `FILENAME_AUTO`, `FILENAME_ALWAYS`). -/
inductive FilenameMode where
  | no
  | auto
  | always
deriving DecidableEq

/-- The configuration options draw.c consumes (the `opt_*` globals), threaded
as an explicit immutable structure. -/
structure Config where
  tab_size : Nat
  show_date : DateMode
  show_author : AuthorMode
  author_width : Nat
  show_id : Bool
  id_width : Nat
  show_filename : FilenameMode
  show_filename_width : Nat
  show_file_size : Bool
  show_line_numbers : Bool
  line_number_interval : Nat
  show_refs : Bool
  line_graphics : GraphicsMode
deriving DecidableEq

/-- Modelled from the spec: fixed column width of the short date format
(`DATE_SHORT_WIDTH`, defined with the date formatter outside src/). -/
def DATE_SHORT_WIDTH : Nat := 10

/-- Modelled from the spec: fixed column width of the long date format
(`DATE_WIDTH`, defined with the date formatter outside src/). -/
def DATE_WIDTH : Nat := 19

/-- Modelled from the spec: the `ACS_VLINE` raw graphic character code used
as the line-number separator in graphic mode (an opaque `chtype` value). -/
def ACS_VLINE : Nat := 4194424

/-- Modelled from the spec: size of the fixed scratch buffers (`SIZEOF_STR`). -/
def SIZEOF_STR : Nat := 1024

/-- The macro `VIEW_MAX_LEN(view) = view->width + view->pos.col - view->col`,
computed in `int` arithmetic (it can go negative). -/
def VIEW_MAX_LEN (v : View) : Int :=
  (v.width : Int) + (v.pos.col : Int) - (v.col : Int)

/-- `set_view_attr`: change the current attribute only when the current line
is not selected and the type actually changes. -/
def set_view_attr (v : View) (type : LineType) : View :=
  if ¬ v.curlineSelected ∧ v.curtype ≠ type then { v with curtype := type } else v

/-- Result of the width engine: the visible characters (after the horizontal
skip) that fit, the display-column count consumed (including skipped
columns), and whether the text was truncated. -/
structure Utf8Length where
  vis : List Char
  width : Nat
  trimmed : Bool
deriving DecidableEq

/-- Modelled from the spec: the Width Engine (`utf8_length`, defined outside
src/): given raw text, a horizontal skip offset and a maximum column budget,
it returns the characters that fit, the resulting display-column count and
whether truncation occurred; with `reserve` set it keeps one column free for
the truncation marker.  Every character counts one display column, and the
returned width counts skipped columns as consumed (matching the caller's
`view->col += col` accounting against `VIEW_MAX_LEN`). -/
def utf8_length (s : List Char) (skip : Nat) (maxWidth : Nat) (reserve : Bool) :
    Utf8Length :=
  if s.length ≤ maxWidth then
    { vis := s.drop skip, width := s.length, trimmed := false }
  else
    let w := if reserve then maxWidth - 1 else maxWidth
    { vis := (s.take w).drop skip, width := w, trimmed := true }

/-- Modelled from the spec: `utf8_width_max` (outside src/): the display
width of the text, clamped to the given budget. -/
def utf8_width_max (s : List Char) (max : Int) : Int :=
  min (s.length : Int) (if max ≤ 0 then 0 else max)

/-- `draw_chars`: write up to `max_len` display columns of `string`, skipping
the horizontally scrolled-out prefix, appending a `~` delimiter cell when the
text was truncated and `use_tilde` is set.  Returns whether the viewport is
now full. -/
def draw_chars (v : View) (type : LineType) (s : List Char) (max_len : Int)
    (use_tilde : Bool) : Bool × View :=
  if max_len ≤ 0 then
    (decide (VIEW_MAX_LEN v ≤ 0), v)
  else
    let skip : Nat := if v.pos.col > v.col then v.pos.col - v.col else 0
    let r := utf8_length s skip max_len.toNat use_tilde
    let hasTilde := decide (0 < r.vis.length) && r.trimmed && use_tilde
    let v1 := set_view_attr v type
    let v2 := if hasTilde then set_view_attr v1 LineType.DELIMITER else v1
    let delta : List Cell :=
      if 0 < r.vis.length then
        r.vis.map (Cell.ch type) ++
          (if hasTilde then [Cell.ch LineType.DELIMITER '~'] else [])
      else []
    let adv := if hasTilde then r.width + 1 else r.width
    let v3 := { v2 with win := v2.win ++ delta, col := v2.col + adv }
    (decide (VIEW_MAX_LEN v3 ≤ 0), v3)

/-- The static 20-space buffer of `draw_space`. -/
def space20 : List Char := List.replicate 20 ' '

/-- The chunked loop of `draw_space`, recursing on the remaining space count
(already clamped to `min max spaces`, taken non-negative). -/
def draw_space_chunks (v : View) (type : LineType) : Nat → Bool × View
  | 0 => (decide (VIEW_MAX_LEN v ≤ 0), v)
  | n + 1 =>
    let len := min (n + 1) 20
    let r := draw_chars v type space20 (len : Int) false
    if r.1 then (true, r.2)
    else draw_space_chunks r.2 type (n + 1 - len)

/-- `draw_space`: pad with blank cells, clamped to `max`, in 20-cell chunks. -/
def draw_space (v : View) (type : LineType) (max spaces : Int) : Bool × View :=
  draw_space_chunks v type (min max spaces).toNat

/-- Modelled from the spec: tab-stop expansion into a bounded scratch buffer
(`string_expand`, outside src/).  Walks the source; a tab expands to the next
multiple of `tab` (clamped to the remaining buffer), any other character
copies one cell; stops when the buffer is full; returns the expanded text and
the number of source characters consumed.  The `size` argument is the number
of cells already produced. -/
def string_expand_loop (dstlen tab : Nat) : List Char → Nat → List Char × Nat
  | [], _ => ([], 0)
  | c :: rest, size =>
    if size < dstlen - 1 then
      let expanded :=
        if c = '\t' then
          let e := tab - size % tab
          if dstlen - 1 ≤ e + size then dstlen - 1 - size else e
        else 1
      let chunk := if c = '\t' then List.replicate expanded ' ' else [c]
      let r := string_expand_loop dstlen tab rest (size + expanded)
      (chunk ++ r.1, r.2 + 1)
    else ([], 0)

/-- Modelled from the spec: `string_expand` entry point with an empty buffer. -/
def string_expand (dstlen tab : Nat) (src : List Char) : List Char × Nat :=
  string_expand_loop dstlen tab src 0

/-- `draw_text_expanded`: expand tabs into the bounded scratch buffer and feed
the result through `draw_chars`, re-entering until the whole string is
consumed or the viewport fills.  The C do/while loop terminates only because
each `string_expand` call consumes at least one source character; the Lean
definition makes that explicit with a fuel argument (`none` marks fuel
exhaustion, which never happens at fuel `s.length + 1`). -/
def draw_text_expanded (cfg : Config) (v : View) (type : LineType) (s : List Char)
    (max_len : Int) (use_tilde : Bool) : Nat → Option (Bool × View)
  | 0 => none
  | fuel + 1 =>
    let e := string_expand SIZEOF_STR cfg.tab_size s
    let r := draw_chars v type e.1 max_len use_tilde
    if r.1 then some (true, r.2)
    else
      let rest := s.drop e.2
      if rest.isEmpty then some (decide (VIEW_MAX_LEN r.2 ≤ 0), r.2)
      else draw_text_expanded cfg r.2 type rest max_len use_tilde fuel

/-- `draw_text`: draw a whole string with tab expansion and tilde truncation.
The fuel `s.length + 1` is provably sufficient (`draw_text_expanded_total`),
so the default branch is never taken. -/
def draw_text (cfg : Config) (v : View) (type : LineType) (s : List Char) :
    Bool × View :=
  (draw_text_expanded cfg v type s (VIEW_MAX_LEN v) true (s.length + 1)).getD (true, v)

/-- `draw_graphic`: write raw `chtype` cells with `waddch`.  The size clamp
`if (max < size) size = max` and the separator condition `size < max` are
`int` versus `size_t` comparisons in C, so a negative `max` converts to a
huge unsigned value; the model reproduces that. -/
def draw_graphic (v : View) (type : LineType) (graphic : List Nat) (size : Nat)
    (separator : Bool) : Bool × View :=
  let skip : Nat := if v.pos.col > v.col then v.pos.col - v.col else 0
  let max := VIEW_MAX_LEN v
  let size' := if 0 ≤ max ∧ max < (size : Int) then max.toNat else size
  let v1 := set_view_attr v type
  let v2 := { v1 with
    win := v1.win ++ ((graphic.take size').drop skip).map (Cell.graph type),
    col := v1.col + size' }
  if separator then
    let sepWrite := (if max < 0 then true else decide ((size' : Int) < max))
      && decide (skip ≤ size')
    let v3 := { v2 with
      win := v2.win ++ (if sepWrite then [Cell.ch type ' '] else []),
      col := v2.col + 1 }
    (decide (VIEW_MAX_LEN v3 ≤ 0), v3)
  else
    (decide (VIEW_MAX_LEN v2 ≤ 0), v2)

/-- The tail of `draw_field` after alignment padding:
`draw_chars(text, max-1, trim) || draw_space(LINE_DEFAULT, max - (view->col - col), max)`.
`col` is the saved column at which the field started (plus any left pad). -/
def draw_field_tail (v : View) (type : LineType) (s : List Char) (max : Int)
    (col : Nat) (trim : Bool) : Bool × View :=
  let r := draw_chars v type s (max - 1) trim
  if r.1 then (true, r.2)
  else draw_space r.2 LineType.DEFAULT (max - ((r.2.col : Int) - (col : Int))) max

/-- `draw_field`: reserve `min(VIEW_MAX_LEN, width+1)` columns; a null text
becomes all blank padding; right alignment draws `max - textlen - 1` leading
blanks when positive; trailing blanks top the field up to the reserved span. -/
def draw_field (v : View) (type : LineType) (text : Option (List Char))
    (width : Nat) (align : Align) (trim : Bool) : Bool × View :=
  let max : Int := min (VIEW_MAX_LEN v) ((width : Int) + 1)
  let col := v.col
  match text with
  | none => draw_space v type max max
  | some s =>
    if align = Align.RIGHT then
      let textlen := utf8_width_max s max
      let leftpad := max - textlen - 1
      if 0 < leftpad then
        let r := draw_space v type leftpad leftpad
        if r.1 then (true, r.2)
        else draw_field_tail r.2 type s (max - leftpad) (col + leftpad.toNat) trim
      else draw_field_tail v type s max col trim
    else draw_field_tail v type s max col trim

/-- Fuelled helper for `decimal`; the fuel `n+1` always suffices. -/
def decimalAux : Nat → Nat → List Char
  | 0, _ => []
  | fuel + 1, n =>
    if n < 10 then [Char.ofNat (48 + n)]
    else decimalAux fuel (n / 10) ++ [Char.ofNat (48 + n % 10)]

/-- Modelled from the spec: decimal rendering of a natural number, as the
printf family produces it (most significant digit first). -/
def decimal (n : Nat) : List Char :=
  decimalAux (n + 1) n

/-- Modelled from the spec: `sprintf`-style formatting of `"%<w>d"` into a
buffer of `bufsize` bytes (`string_format` via `FORMAT_BUFFER`, outside
src/): the decimal rendering of `n`, left-padded with spaces up to the
minimum field width `w`; fails (returns `none`, like `string_format`
returning false) when the result plus the terminating NUL does not fit. -/
def string_format (bufsize w n : Nat) : Option (List Char) :=
  let s := decimal n
  let padded := List.replicate (w - s.length) ' ' ++ s
  if padded.length + 1 ≤ bufsize then some padded else none

/-- Modelled from the spec: the date formatter `mkdate` (outside src/); any
fixed pure rendering works for the claims, here the decimal timestamp.  A
missing time yields a null string. -/
def mkdate (t : Option Nat) (_mode : DateMode) : Option (List Char) :=
  t.map (fun n => decimal n)

/-- Modelled from the spec: the author formatter `mkauthor` (outside src/). -/
def mkauthor (a : Option (List Char)) (_width : Nat) (_mode : AuthorMode) :
    Option (List Char) :=
  a

/-- Modelled from the spec: the width-comparison helper `author_trim`
deciding the author trimming policy (outside src/). -/
def author_trim (width : Nat) : Bool :=
  decide (10 < width)

/-- Modelled from the spec: UTF-8 display-width measurement `utf8_width`
(outside src/); one column per character in this model. -/
def utf8_width (s : List Char) : Nat :=
  s.length

/-- Modelled from the spec: the `S_ISDIR` mode-bit test (`(m & S_IFMT) ==
S_IFDIR`, with `S_IFDIR = 0o040000`). -/
def S_ISDIR (m : Nat) : Bool :=
  decide (m / 4096 % 16 = 4)

/-- Modelled from the spec: the file-size formatter `mkfilesize` (outside
src/). -/
def mkfilesize (size : Nat) (_show : Bool) : Option (List Char) :=
  some (decimal size)

/-- Modelled from the spec: the mode formatter `mkmode` (outside src/),
a 10-cell `"-rw-r--r--"`-style rendering. -/
def mkmode (m : Nat) : Option (List Char) :=
  some ((if S_ISDIR m then 'd' else '-') :: List.replicate 9 'r')

/-- A named ref (branch/tag label) attached to a commit row. -/
structure Ref where
  name : List Char
  valid : Bool
  rtype : Nat
deriving DecidableEq

/-- Modelled from the spec: `get_line_type_from_ref` (outside src/), mapping
a ref to its semantic line type. -/
def get_line_type_from_ref (r : Ref) : LineType :=
  LineType.REF r.rtype

/-- One revision-graph lane symbol: a commit-node marker or a lane colour
index into the fixed 7-entry palette. -/
structure GraphSymbol where
  commit : Bool
  color : Fin 7
deriving DecidableEq

/-- The fixed 7-entry graph palette `graph_colors[]`. -/
def graph_colors (i : Fin 7) : LineType :=
  LineType.PALETTE i

/-- `get_graph_color`: commit nodes use the dedicated commit type, otherwise
the lane colour is mapped through the palette (the `assert(color < 7)` is
enforced by the `Fin 7` type). -/
def get_graph_color (symbol : GraphSymbol) : LineType :=
  if symbol.commit then LineType.GRAPH_COMMIT else graph_colors symbol.color

/-- Modelled from the spec: `graph_symbol_to_ascii` (graph.c, outside src/):
every symbol renders as a two-cell glyph; callers elide the leading cell for
the first symbol of a row. -/
def graph_symbol_to_ascii (symbol : GraphSymbol) : List Char :=
  [' ', if symbol.commit then '*' else '|']

/-- Modelled from the spec: `graph_symbol_to_utf8` (graph.c, outside src/):
a two-cell glyph per symbol, with different glyph content than ascii. -/
def graph_symbol_to_utf8 (symbol : GraphSymbol) : List Char :=
  ['-', if symbol.commit then 'o' else 'I']

/-- Modelled from the spec: `graph_symbol_to_chtype` (graph.c, outside
src/): two raw graphic cells per symbol. -/
def graph_symbol_to_chtype (symbol : GraphSymbol) : List Nat :=
  [4194417, if symbol.commit then 4194400 else 4194424]

/-- `draw_graph_ascii`: draw one symbol as text, eliding the first cell when
`first`. -/
def draw_graph_ascii (cfg : Config) (v : View) (symbol : GraphSymbol)
    (color : LineType) (first : Bool) : Bool × View :=
  draw_text cfg v color ((graph_symbol_to_ascii symbol).drop (if first then 1 else 0))

/-- `draw_graph_utf8`: draw one symbol as UTF-8 text, eliding the first cell
when `first`. -/
def draw_graph_utf8 (cfg : Config) (v : View) (symbol : GraphSymbol)
    (color : LineType) (first : Bool) : Bool × View :=
  draw_text cfg v color ((graph_symbol_to_utf8 symbol).drop (if first then 1 else 0))

/-- `draw_graph_chtype`: draw one symbol as raw graphic cells, eliding the
first cell when `first`. -/
def draw_graph_chtype (_cfg : Config) (v : View) (symbol : GraphSymbol)
    (color : LineType) (first : Bool) : Bool × View :=
  draw_graphic v color ((graph_symbol_to_chtype symbol).drop (if first then 1 else 0))
    (2 - (if first then 1 else 0)) false

/-- The `fns[]` strategy table indexed by `opt_line_graphics`. -/
def draw_graph_fn (mode : GraphicsMode) :
    Config → View → GraphSymbol → LineType → Bool → Bool × View :=
  match mode with
  | GraphicsMode.ascii => draw_graph_ascii
  | GraphicsMode.chtype => draw_graph_chtype
  | GraphicsMode.utf8 => draw_graph_utf8

/-- The symbol loop of `draw_graph`; `first` is `i == 0`.  After the last
symbol, one blank separator cell follows. -/
def draw_graph_loop (cfg : Config) (v : View) :
    List GraphSymbol → Bool → Bool × View
  | [], _ => draw_text cfg v LineType.DEFAULT [' ']
  | symbol :: rest, first =>
    let color := get_graph_color symbol
    let r := draw_graph_fn cfg.line_graphics cfg v symbol color first
    if r.1 then (true, r.2)
    else draw_graph_loop cfg r.2 rest false

/-- `draw_graph`: render one canvas with the strategy selected by
`opt_line_graphics`. -/
def draw_graph (cfg : Config) (v : View) (canvas : List GraphSymbol) :
    Bool × View :=
  draw_graph_loop cfg v canvas true

/-- `draw_date`: suppressed when the date display is off; otherwise a
left-aligned field of the fixed date width. -/
def draw_date (cfg : Config) (v : View) (time : Option Nat) : Bool × View :=
  let date := mkdate time cfg.show_date
  let cols := if cfg.show_date = DateMode.short then DATE_SHORT_WIDTH else DATE_WIDTH
  if cfg.show_date = DateMode.no then (false, v)
  else draw_field v LineType.DATE date cols Align.LEFT false

/-- `draw_author`: suppressed when the author display is off. -/
def draw_author (cfg : Config) (v : View) (author : Option (List Char))
    (width : Nat) : Bool × View :=
  let trim := author_trim width
  let text := mkauthor author width cfg.show_author
  if cfg.show_author = AuthorMode.no then (false, v)
  else draw_field v LineType.AUTHOR text width Align.LEFT trim

/-- `draw_id_custom`: an explicit-width left-aligned id field. -/
def draw_id_custom (v : View) (type : LineType) (id : Option (List Char))
    (width : Nat) : Bool × View :=
  draw_field v type id width Align.LEFT false

/-- `draw_id`: suppressed when the id display is off; otherwise the
configured id width. -/
def draw_id (cfg : Config) (v : View) (id : Option (List Char)) : Bool × View :=
  if ¬ cfg.show_id then (false, v)
  else draw_id_custom v LineType.ID id cfg.id_width

/-- `draw_filename`: directory versus file type from the mode bits;
suppressed when the filename display is off, or auto without the row
requesting it. -/
def draw_filename (cfg : Config) (v : View) (filename : Option (List Char))
    (auto_enabled : Bool) (mode : Nat) (width : Nat) : Bool × View :=
  let trim := match filename with
    | some f => decide (width ≤ utf8_width f)
    | none => false
  let type := if S_ISDIR mode then LineType.DIRECTORY else LineType.FILE
  if cfg.show_filename = FilenameMode.no then (false, v)
  else if cfg.show_filename = FilenameMode.auto ∧ ¬ auto_enabled then (false, v)
  else draw_field v type filename width Align.LEFT trim

/-- `draw_file_size`: suppressed when the width is 0 or the size display is
off; with `pad` the text is null so only blank padding is drawn. -/
def draw_file_size (cfg : Config) (v : View) (size : Nat) (width : Nat)
    (pad : Bool) : Bool × View :=
  let str := if pad then none else mkfilesize size cfg.show_file_size
  if width = 0 ∨ ¬ cfg.show_file_size then (false, v)
  else draw_field v LineType.FILE_SIZE str width Align.RIGHT false

/-- `draw_mode`: a fixed-width left-aligned mode field
(`STRING_SIZE("-rw-r--r--") = 10`). -/
def draw_mode (v : View) (mode : Nat) : Bool × View :=
  let str := mkmode mode
  draw_field v LineType.MODE str 10 Align.LEFT false

/-- `draw_lineno_custom`: the numeric field is `max(3, view->digits)` wide;
a number is rendered on line 1 and every `interval`-th line via the format
`"%<digits3>d"` when `view->digits <= 9` and `"%1d"` otherwise; other lines
draw blank padding; one separator graphic cell always follows. -/
def draw_lineno_custom (cfg : Config) (v : View) (lineno : Nat) (showNo : Bool)
    (interval : Nat) : Bool × View :=
  let digits3 := if v.digits < 3 then 3 else v.digits
  let max : Int := min (VIEW_MAX_LEN v) (digits3 : Int)
  let separator : Nat := if cfg.line_graphics ≠ GraphicsMode.ascii then ACS_VLINE else 124
  if ¬ showNo then (false, v)
  else
    let text : Option (List Char) :=
      if lineno = 1 ∨ lineno % interval = 0 then
        string_format 10 (if v.digits ≤ 9 then digits3 else 1) lineno
      else none
    let v1 := match text with
      | some t => (draw_chars v LineType.LINE_NUMBER t max true).2
      | none => (draw_space v LineType.LINE_NUMBER max (digits3 : Int)).2
    draw_graphic v1 LineType.DEFAULT [separator] 1 true

/-- `draw_lineno`: make the row index 1-based and absolute, then delegate. -/
def draw_lineno (cfg : Config) (v : View) (lineno : Nat) : Bool × View :=
  draw_lineno_custom cfg v (lineno + v.pos.offset + 1) cfg.show_line_numbers
    cfg.line_number_interval

/-- One iteration body of `draw_refs`: `draw_formatted(view, type, "[%s]",
ref->name)` (the `FORMAT_BUFFER` truncates to the scratch buffer) followed by
one blank cell. -/
def draw_refs_loop (cfg : Config) (v : View) : List Ref → Bool × View
  | [] => (false, v)
  | ref :: rest =>
    let type := get_line_type_from_ref ref
    let formatted := ('[' :: ref.name ++ [']']).take (SIZEOF_STR - 1)
    let r := draw_text cfg v type formatted
    if r.1 then (true, r.2)
    else
      let r2 := draw_text cfg r.2 LineType.DEFAULT [' ']
      if r2.1 then (true, r2.2)
      else draw_refs_loop cfg r2.2 rest

/-- `draw_refs`: skipped when ref display is off or the list is absent. -/
def draw_refs (cfg : Config) (v : View) (refs : Option (List Ref)) : Bool × View :=
  if ¬ cfg.show_refs then (false, v)
  else match refs with
    | none => (false, v)
    | some rs => draw_refs_loop cfg v rs

/-- Modelled from the spec: `draw_commit_title` (declared in draw.h, defined
outside src/): draws the commit title text itself after graph and refs. -/
def draw_commit_title (cfg : Config) (v : View) (text : List Char)
    (offset : Nat) : Bool × View :=
  draw_text cfg v LineType.DEFAULT (text.drop offset)

/-- The column kinds (`enum view_column`). -/
inductive ViewColumn where
  | DATE
  | AUTHOR
  | REF
  | ID
  | LINE_NUMBER
  | MODE
  | FILE_SIZE
  | COMMIT_TITLE
  | FILE_NAME
  | TEXT
deriving DecidableEq

/-- The per-row column-value bundle (`struct view_columns`), zero-initialized
in C; null pointers are `none`. -/
structure ViewColumns where
  date : Option Nat := none
  author : Option (List Char) := none
  ref : Option Ref := none
  id : Option (List Char) := none
  mode : Option Nat := none
  file_size : Option Nat := none
  graph : Option (List GraphSymbol) := none
  refs : Option (List Ref) := none
  commit_title : List Char := []
  file_name : Option (List Char) := none
  text : List Char := []
deriving DecidableEq

/-- The row-source's static column configuration and `get_columns` callback:
`columns` pairs each configured column kind with its `columns_info[i].width`. -/
structure ViewOps where
  get_columns : View → Line → Option ViewColumns
  columns : List (ViewColumn × Nat)

/-- One arm of the column dispatch switch.  The result's boolean is the
`return TRUE` signal; `false` is the `continue`. -/
def view_columns_draw_col (cfg : Config) (v : View) (line : Line) (lineno : Nat)
    (columns : ViewColumns) : ViewColumn × Nat → Bool × View
  | (ViewColumn.DATE, _) => draw_date cfg v columns.date
  | (ViewColumn.AUTHOR, width) =>
    draw_author cfg v columns.author
      (if cfg.author_width ≠ 0 then cfg.author_width else width)
  | (ViewColumn.REF, width) =>
    let type := match columns.ref with
      | none => LineType.DEFAULT
      | some ref => if ¬ ref.valid then LineType.DEFAULT else get_line_type_from_ref ref
    let name := columns.ref.map Ref.name
    draw_field v type name width Align.LEFT false
  | (ViewColumn.ID, width) =>
    let first := if width = 0 then draw_id cfg v columns.id else (false, v)
    if first.1 then (true, first.2)
    else if cfg.show_id then draw_id_custom first.2 LineType.ID columns.id width
    else (false, first.2)
  | (ViewColumn.LINE_NUMBER, _) => draw_lineno cfg v lineno
  | (ViewColumn.MODE, _) => draw_mode v (columns.mode.getD 0)
  | (ViewColumn.FILE_SIZE, width) =>
    draw_file_size cfg v (columns.file_size.getD 0) width
      (columns.mode = none ∨ S_ISDIR (columns.mode.getD 0))
  | (ViewColumn.COMMIT_TITLE, _) =>
    let g := match columns.graph with
      | some canvas => draw_graph cfg v canvas
      | none => (false, v)
    if g.1 then (true, g.2)
    else
      let r := match columns.refs with
        | some _ => draw_refs cfg g.2 columns.refs
        | none => (false, g.2)
      if r.1 then (true, r.2)
      else draw_commit_title cfg r.2 columns.commit_title 0
  | (ViewColumn.FILE_NAME, width) =>
    draw_filename cfg v columns.file_name true (columns.mode.getD 0)
      (if cfg.show_filename_width ≠ 0 then cfg.show_filename_width else width)
  | (ViewColumn.TEXT, _) => draw_text cfg v line.type columns.text

/-- The column loop of `view_columns_draw`; falls through to `return TRUE`. -/
def view_columns_draw_loop (cfg : Config) (line : Line) (lineno : Nat)
    (columns : ViewColumns) (v : View) : List (ViewColumn × Nat) → Bool × View
  | [] => (true, v)
  | c :: rest =>
    let r := view_columns_draw_col cfg v line lineno columns c
    if r.1 then (true, r.2)
    else view_columns_draw_loop cfg line lineno columns r.2 rest

/-- `view_columns_draw`: populate the column-value bundle via the row
source's `get_columns` (failure aborts the row, reported as `TRUE`), then
dispatch each configured column in order. -/
def view_columns_draw (cfg : Config) (ops : ViewOps) (v : View) (line : Line)
    (lineno : Nat) : Bool × View :=
  match ops.get_columns v line with
  | none => (true, v)
  | some columns => view_columns_draw_loop cfg line lineno columns v ops.columns

/-- The row-source collaborator seen by the scheduler: the per-row draw
callback (`view->ops->draw`) and the selection hook (`view->ops->select`). -/
structure RowSource where
  draw : View → Line → Nat → Bool × View
  select : View → Line → View

/-- `draw_view_line`: bail out (returning false, with no side effect) when
the physical row is beyond the materialized rows; otherwise reset the row
cursor and attribute, clear the row's `selected`/`dirty`/`cleareol` flags,
apply the cursor highlight and selection hook when this is the cursor line,
and delegate to the row-source's draw callback.  The painted row index is
recorded in the ghost field `painted`. -/
def draw_view_line (src : RowSource) (v : View) (lineno : Nat) : Bool × View :=
  let selected := v.pos.offset + lineno = v.pos.lineno
  if v.line.length ≤ v.pos.offset + lineno then (false, v)
  else
    let idx := v.pos.offset + lineno
    let line0 := v.line.getD idx dfltLine
    let line1 := { line0 with selected := false, dirty := false, cleareol := false }
    let v1 := { v with
      col := 0,
      curtype := LineType.NONE,
      curlineSelected := false,
      line := v.line.set idx line1,
      painted := v.painted ++ [lineno] }
    if selected then
      let va := set_view_attr v1 LineType.CURSOR
      let lineSel := { line1 with selected := true }
      let vb := { va with line := va.line.set idx lineSel, curlineSelected := true }
      src.draw (src.select vb lineSel) lineSel lineno
    else
      src.draw v1 line1 lineno

/-- The scan loop of `redraw_view_dirty`, with an explicit fuel argument;
`draw_view_line` and the loop re-read `view->height` each iteration, and the
fuel `view->height + 1` drawn at entry is exhausted only if the row source
grows the view's height mid-scan (which the C loop would keep following).
Returns the accumulated `dirty` flag with the final view. -/
def redraw_view_dirty_loop (src : RowSource) : Nat → View → Nat → Bool → Bool × View
  | 0, v, _, dirty => (dirty, v)
  | fuel + 1, v, lineno, dirty =>
    if lineno < v.height then
      if v.line.length ≤ v.pos.offset + lineno then (dirty, v)
      else if ¬ (v.line.getD (v.pos.offset + lineno) dfltLine).dirty then
        redraw_view_dirty_loop src fuel v (lineno + 1) dirty
      else
        let r := draw_view_line src v lineno
        if ¬ r.1 then (true, r.2)
        else redraw_view_dirty_loop src fuel r.2 (lineno + 1) true
    else (dirty, v)

/-- `redraw_view_dirty`: scan rows top-to-bottom within the visible height,
repaint the dirty ones, and issue one batched `wnoutrefresh` only when some
dirty row was found. -/
def redraw_view_dirty (src : RowSource) (v : View) : View :=
  let r := redraw_view_dirty_loop src (v.height + 1) v 0 false
  if ¬ r.1 then r.2 else { r.2 with refreshes := r.2.refreshes + 1 }

/-!
Render-state preservation: all clip-draw primitives and field/graph
renderers only change `col`, `win`, `curtype` and `curlineSelected`; the
tuple `rs` collects every other field.
-/

/-- The fields of a `View` that the drawing primitives never change. -/
def rs (v : View) : List Line × Pos × Nat × Nat × Nat × Nat × List Nat :=
  (v.line, v.pos, v.width, v.height, v.digits, v.refreshes, v.painted)

theorem rs_eq_iff {u v : View} : rs u = rs v ↔
    u.line = v.line ∧ u.pos = v.pos ∧ u.width = v.width ∧ u.height = v.height ∧
    u.digits = v.digits ∧ u.refreshes = v.refreshes ∧ u.painted = v.painted := by
  simp [rs, Prod.ext_iff]

theorem VIEW_MAX_LEN_of_rs {u v : View} (h : rs u = rs v) :
    VIEW_MAX_LEN u = (v.width : Int) + (v.pos.col : Int) - (u.col : Int) := by
  rw [rs_eq_iff] at h
  simp [VIEW_MAX_LEN, h.2.1, h.2.2.1]

/-- Splitting an interval at an interior point preserves the clamped length. -/
theorem toNat_split (a b : Int) (h0 : 0 ≤ a) (hab : a ≤ b) :
    a.toNat + (b - a).toNat = b.toNat := by
  rw [← Int.toNat_add h0 (Int.sub_nonneg.mpr hab)]
  congr 1
  ring

@[simp] theorem rs_set_view_attr (v : View) (t : LineType) :
    rs (set_view_attr v t) = rs v := by
  unfold set_view_attr
  split <;> rfl

@[simp] theorem col_set_view_attr (v : View) (t : LineType) :
    (set_view_attr v t).col = v.col := by
  unfold set_view_attr
  split <;> rfl

@[simp] theorem win_set_view_attr (v : View) (t : LineType) :
    (set_view_attr v t).win = v.win := by
  unfold set_view_attr
  split <;> rfl

@[simp] theorem line_set_view_attr (v : View) (t : LineType) :
    (set_view_attr v t).line = v.line := by
  unfold set_view_attr
  split <;> rfl

@[simp] theorem pos_set_view_attr (v : View) (t : LineType) :
    (set_view_attr v t).pos = v.pos := by
  unfold set_view_attr
  split <;> rfl

@[simp] theorem width_set_view_attr (v : View) (t : LineType) :
    (set_view_attr v t).width = v.width := by
  unfold set_view_attr
  split <;> rfl

@[simp] theorem height_set_view_attr (v : View) (t : LineType) :
    (set_view_attr v t).height = v.height := by
  unfold set_view_attr
  split <;> rfl

@[simp] theorem digits_set_view_attr (v : View) (t : LineType) :
    (set_view_attr v t).digits = v.digits := by
  unfold set_view_attr
  split <;> rfl

@[simp] theorem refreshes_set_view_attr (v : View) (t : LineType) :
    (set_view_attr v t).refreshes = v.refreshes := by
  unfold set_view_attr
  split <;> rfl

@[simp] theorem painted_set_view_attr (v : View) (t : LineType) :
    (set_view_attr v t).painted = v.painted := by
  unfold set_view_attr
  split <;> rfl

/-- The column advance of one `draw_chars` call, as a closed form. -/
def charsAdv (v : View) (s : List Char) (max_len : Int) (use_tilde : Bool) : Nat :=
  if max_len ≤ 0 then 0
  else
    let skip : Nat := if v.pos.col > v.col then v.pos.col - v.col else 0
    let r := utf8_length s skip max_len.toNat use_tilde
    if decide (0 < r.vis.length) && r.trimmed && use_tilde then r.width + 1
    else r.width

/-- The cells appended by one `draw_chars` call, as a closed form. -/
def charsDelta (v : View) (type : LineType) (s : List Char) (max_len : Int)
    (use_tilde : Bool) : List Cell :=
  if max_len ≤ 0 then []
  else
    let skip : Nat := if v.pos.col > v.col then v.pos.col - v.col else 0
    let r := utf8_length s skip max_len.toNat use_tilde
    if 0 < r.vis.length then
      r.vis.map (Cell.ch type) ++
        (if decide (0 < r.vis.length) && r.trimmed && use_tilde then
          [Cell.ch LineType.DELIMITER '~'] else [])
    else []

theorem draw_chars_nonpos (v : View) (t : LineType) (s : List Char) {ml : Int}
    (til : Bool) (h : ml ≤ 0) :
    draw_chars v t s ml til = (decide (VIEW_MAX_LEN v ≤ 0), v) := by
  unfold draw_chars
  rw [if_pos h]

theorem draw_chars_col (v : View) (t : LineType) (s : List Char) (ml : Int)
    (til : Bool) :
    (draw_chars v t s ml til).2.col = v.col + charsAdv v s ml til := by
  unfold draw_chars charsAdv
  split
  · simp
  · simp [apply_ite View.col]

theorem draw_chars_win (v : View) (t : LineType) (s : List Char) (ml : Int)
    (til : Bool) :
    (draw_chars v t s ml til).2.win = v.win ++ charsDelta v t s ml til := by
  unfold draw_chars charsDelta
  split
  · simp
  · simp [apply_ite View.win]

theorem draw_chars_rs (v : View) (t : LineType) (s : List Char) (ml : Int)
    (til : Bool) : rs (draw_chars v t s ml til).2 = rs v := by
  unfold draw_chars
  split
  · rfl
  · simp [rs, apply_ite View.line, apply_ite View.pos, apply_ite View.width,
      apply_ite View.height, apply_ite View.digits, apply_ite View.refreshes,
      apply_ite View.painted]

theorem draw_chars_ret (v : View) (t : LineType) (s : List Char) (ml : Int)
    (til : Bool) :
    (draw_chars v t s ml til).1 =
      decide (VIEW_MAX_LEN (draw_chars v t s ml til).2 ≤ 0) := by
  unfold draw_chars
  split
  · rfl
  · rfl

theorem utf8_length_width_le (s : List Char) (skip maxWidth : Nat) (r : Bool) :
    (utf8_length s skip maxWidth r).width ≤ maxWidth := by
  unfold utf8_length
  split
  · simpa using ‹s.length ≤ maxWidth›
  · dsimp only
    split <;> omega

theorem utf8_length_reserve (s : List Char) (skip maxWidth : Nat)
    (h : ¬ s.length ≤ maxWidth) :
    (utf8_length s skip maxWidth true).width ≤ maxWidth - 1 := by
  unfold utf8_length
  rw [if_neg h]
  simp

theorem utf8_width_max_nonneg (s : List Char) (m : Int) :
    0 ≤ utf8_width_max s m := by
  unfold utf8_width_max
  have h1 : (0 : Int) ≤ (s.length : Int) := Int.natCast_nonneg _
  have h2 : (0 : Int) ≤ (if m ≤ 0 then 0 else m) := by split <;> omega
  clear * - h1 h2
  omega

theorem charsAdv_le (v : View) (s : List Char) (ml : Int) (til : Bool) :
    charsAdv v s ml til ≤ ml.toNat := by
  by_cases hml : ml ≤ 0
  · simp [charsAdv, hml]
  · by_cases hfit : s.length ≤ ml.toNat
    · simp [charsAdv, if_neg hml, utf8_length, hfit]
    · have hml' : 0 < ml.toNat := by omega
      simp only [charsAdv, if_neg hml, utf8_length, if_neg hfit]
      rcases til with - | -
      · simp
      · simp only [eq_self_iff_true, if_true, Bool.and_true, Bool.true_and,
          decide_eq_true_eq]
        split <;> (split <;> omega)

theorem charsAdv_fits (v : View) (s : List Char) {ml : Int} (til : Bool)
    (h0 : 0 < ml) (h : s.length ≤ ml.toNat) :
    charsAdv v s ml til = s.length := by
  unfold charsAdv
  rw [if_neg (by omega)]
  simp [utf8_length, h]

theorem draw_chars_mono (v : View) (t : LineType) (s : List Char) (ml : Int)
    (til : Bool) : v.col ≤ (draw_chars v t s ml til).2.col := by
  rw [draw_chars_col]
  omega

theorem draw_chars_col_le (v : View) (t : LineType) (s : List Char) (ml : Int)
    (til : Bool) : (draw_chars v t s ml til).2.col ≤ v.col + ml.toNat := by
  rw [draw_chars_col]
  have := charsAdv_le v s ml til
  omega

theorem charsDelta_fits (v : View) (t : LineType) (s : List Char) {ml : Int}
    (til : Bool) (h0 : 0 < ml) (h : s.length ≤ ml.toNat) (hskip : v.pos.col ≤ v.col) :
    charsDelta v t s ml til = s.map (Cell.ch t) := by
  unfold charsDelta
  rw [if_neg (by omega)]
  have hsk : (if v.pos.col > v.col then v.pos.col - v.col else 0) = 0 := by
    split <;> omega
  dsimp only
  rw [hsk]
  have hu : utf8_length s 0 ml.toNat til =
      { vis := s, width := s.length, trimmed := false } := by
    simp [utf8_length, h]
  rw [hu]
  rcases s with - | ⟨c, cs⟩
  · simp
  · simp

theorem charsAdv_space (v : View) {len : Nat} (h1 : 1 ≤ len) (h2 : len ≤ 20) :
    charsAdv v space20 (len : Int) false = len := by
  by_cases h : 20 ≤ len
  · have hlen : len = 20 := by omega
    subst hlen
    rw [charsAdv_fits v space20 false (by omega) (by simp [space20])]
    simp [space20]
  · have hml : ¬ ((len : Int) ≤ 0) := by omega
    have htk : ((len : Int)).toNat = len := by omega
    have hfid : ¬ (space20.length ≤ len) := by
      simp only [space20, List.length_replicate]
      omega
    simp only [charsAdv, if_neg hml, htk, utf8_length, if_neg hfid]
    simp

theorem charsDelta_space (v : View) (t : LineType) {len : Nat} (h1 : 1 ≤ len)
    (h2 : len ≤ 20) (hskip : v.pos.col ≤ v.col) :
    charsDelta v t space20 (len : Int) false = List.replicate len (Cell.ch t ' ') := by
  have hsk : (if v.pos.col > v.col then v.pos.col - v.col else 0) = 0 := by
    split <;> omega
  by_cases h : 20 ≤ len
  · have hlen : len = 20 := by omega
    subst hlen
    rw [charsDelta_fits v t space20 false (by omega) (by simp [space20]) hskip]
    simp only [space20, List.map_replicate]
  · have hml : ¬ ((len : Int) ≤ 0) := by omega
    have htk : ((len : Int)).toNat = len := by omega
    have hfid : ¬ (space20.length ≤ len) := by
      simp only [space20, List.length_replicate]
      omega
    have hu : utf8_length space20 0 len false =
        { vis := (space20.take len).drop 0, width := len, trimmed := true } := by
      simp [utf8_length, if_neg hfid]
    simp only [charsDelta, if_neg hml, htk, hsk, hu]
    have hvis : (space20.take len).drop 0 = List.replicate len ' ' := by
      rw [List.drop_zero]
      simp only [space20, List.take_replicate]
      rw [Nat.min_eq_left (by omega)]
    rw [hvis]
    rw [if_pos (by simpa using h1)]
    simp [List.map_replicate]

theorem draw_space_chunks_rs (t : LineType) (n : Nat) :
    ∀ v, rs (draw_space_chunks v t n).2 = rs v := by
  induction n using Nat.strong_induction_on with
  | _ n ih =>
    intro v
    rcases n with - | n
    · simp [draw_space_chunks]
    · simp only [draw_space_chunks]
      split
      · exact draw_chars_rs ..
      · rw [ih (n + 1 - min (n + 1) 20) (by omega)]
        exact draw_chars_rs ..

theorem draw_space_chunks_ret (t : LineType) (n : Nat) :
    ∀ v, (draw_space_chunks v t n).1 =
      decide (VIEW_MAX_LEN (draw_space_chunks v t n).2 ≤ 0) := by
  induction n using Nat.strong_induction_on with
  | _ n ih =>
    intro v
    rcases n with - | n
    · simp [draw_space_chunks]
    · simp only [draw_space_chunks]
      split
      · rename_i hfull
        rw [draw_chars_ret] at hfull
        simp only
        rw [eq_comm, decide_eq_true_iff]
        exact of_decide_eq_true hfull
      · exact ih (n + 1 - min (n + 1) 20) (by omega) _

theorem draw_space_chunks_mono (t : LineType) (n : Nat) :
    ∀ v, v.col ≤ (draw_space_chunks v t n).2.col ∧
      (draw_space_chunks v t n).2.col ≤ v.col + n := by
  induction n using Nat.strong_induction_on with
  | _ n ih =>
    intro v
    rcases n with - | n
    · simp [draw_space_chunks]
    · have hcast : ((min (n + 1) 20 : Nat) : Int).toNat = min (n + 1) 20 :=
        Int.toNat_natCast _
      have hlen1 : 1 ≤ min (n + 1) 20 :=
        le_min (Nat.le_add_left 1 n) (by decide)
      have hlen3 : min (n + 1) 20 ≤ n + 1 := min_le_left _ _
      have h1 := draw_chars_mono v t space20 (min (n + 1) 20 : Nat) false
      have h2 := draw_chars_col_le v t space20 (min (n + 1) 20 : Nat) false
      rw [hcast] at h2
      simp only [draw_space_chunks]
      set L := min (n + 1) 20 with hL
      set A := draw_chars v t space20 ((L : Nat) : Int) false with hA
      clear_value L A
      clear hA hL hcast
      split
      · simp only
        constructor
        · exact h1
        · clear * - h2 hlen3
          omega
      · have h3 := ih (n + 1 - L) (by clear * - hlen1; omega) A.2
        clear * - h1 h2 h3 hlen3
        omega

theorem draw_space_chunks_spec (t : LineType) (n : Nat) :
    ∀ v, (n = 0 ∨ (n : Int) ≤ VIEW_MAX_LEN v) →
      (draw_space_chunks v t n).2.col = v.col + n ∧
      (draw_space_chunks v t n).1 = decide (VIEW_MAX_LEN v ≤ (n : Int)) ∧
      (v.pos.col ≤ v.col →
        (draw_space_chunks v t n).2.win = v.win ++ List.replicate n (Cell.ch t ' ')) := by
  induction n using Nat.strong_induction_on with
  | _ n ih =>
    intro v hn
    rcases n with - | n
    · simp [draw_space_chunks]
    · have hn' : ((n : Int) + 1) ≤ VIEW_MAX_LEN v := by
        rcases hn with h | h
        · omega
        · push_cast at h
          omega
      clear hn
      have hlen1 : 1 ≤ min (n + 1) 20 :=
        le_min (Nat.le_add_left 1 n) (by decide)
      have hlen2 : min (n + 1) 20 ≤ 20 := min_le_right _ _
      have hlen3 : min (n + 1) 20 ≤ n + 1 := min_le_left _ _
      have hcol := draw_chars_col v t space20 (min (n + 1) 20 : Nat) false
      rw [charsAdv_space v hlen1 hlen2] at hcol
      have hrs := draw_chars_rs v t space20 (min (n + 1) 20 : Nat) false
      have hml := VIEW_MAX_LEN_of_rs hrs
      have hret := draw_chars_ret v t space20 (min (n + 1) 20 : Nat) false
      have hwin := draw_chars_win v t space20 (min (n + 1) 20 : Nat) false
      have hmlv : VIEW_MAX_LEN (draw_chars v t space20 (min (n + 1) 20 : Nat) false).2 =
          VIEW_MAX_LEN v - (min (n + 1) 20 : Nat) := by
        rw [hml, hcol]
        unfold VIEW_MAX_LEN
        push_cast
        ring
      clear hml
      simp only [draw_space_chunks]
      set L := min (n + 1) 20 with hL
      set A := draw_chars v t space20 ((L : Nat) : Int) false with hA
      clear_value L A
      split
      · rename_i hfull
        rw [hret, decide_eq_true_iff, hmlv] at hfull
        clear hret hrs hA
        have heq : L = n + 1 := by clear * - hn' hlen3 hfull; omega
        refine ⟨?_, ?_, ?_⟩
        · rw [hcol, heq]
        · rw [eq_comm, decide_eq_true_iff]
          clear * - hfull heq
          omega
        · intro hskip
          rw [hwin, charsDelta_space v t hlen1 hlen2 hskip, heq]
      · rename_i hfull
        rw [hret, decide_eq_true_iff, hmlv] at hfull
        clear hret hA
        have hrec := ih (n + 1 - L) (by clear * - hlen1; omega) A.2
          (by
            right
            rw [hmlv]
            clear * - hfull hlen3 hn'
            omega)
        rw [rs_eq_iff] at hrs
        refine ⟨?_, ?_, ?_⟩
        · rw [hrec.1, hcol]
          clear * - hlen1 hlen3
          omega
        · rw [hrec.2.1, hmlv, decide_eq_decide]
          clear * - hlen3
          push_cast [Nat.cast_sub hlen3]
          omega
        · intro hskip
          have hskip2 : A.2.pos.col ≤ A.2.col := by
            rw [hrs.2.1, hcol]
            clear * - hskip
            omega
          rw [hrec.2.2 hskip2, hwin, charsDelta_space v t hlen1 hlen2 hskip]
          rw [List.append_assoc, ← List.replicate_add]
          congr 2
          clear * - hlen3
          omega

theorem draw_space_rs (v : View) (t : LineType) (max spaces : Int) :
    rs (draw_space v t max spaces).2 = rs v :=
  draw_space_chunks_rs ..

theorem draw_space_ret (v : View) (t : LineType) (max spaces : Int) :
    (draw_space v t max spaces).1 =
      decide (VIEW_MAX_LEN (draw_space v t max spaces).2 ≤ 0) :=
  draw_space_chunks_ret ..

theorem draw_space_mono (v : View) (t : LineType) (max spaces : Int) :
    v.col ≤ (draw_space v t max spaces).2.col ∧
      (draw_space v t max spaces).2.col ≤ v.col + (min max spaces).toNat :=
  draw_space_chunks_mono ..

theorem draw_space_spec (v : View) (t : LineType) {max spaces : Int}
    (h : min max spaces ≤ VIEW_MAX_LEN v) :
    (draw_space v t max spaces).2.col = v.col + (min max spaces).toNat ∧
    (draw_space v t max spaces).1 =
      decide (VIEW_MAX_LEN v ≤ ((min max spaces).toNat : Int)) ∧
    (v.pos.col ≤ v.col →
      (draw_space v t max spaces).2.win =
        v.win ++ List.replicate (min max spaces).toNat (Cell.ch t ' ')) := by
  apply draw_space_chunks_spec
  by_cases h0 : min max spaces ≤ 0
  · left
    omega
  · right
    omega

theorem draw_field_tail_rs (v : View) (t : LineType) (s : List Char) (max : Int)
    (col : Nat) (trim : Bool) : rs (draw_field_tail v t s max col trim).2 = rs v := by
  unfold draw_field_tail
  dsimp only
  split
  · exact draw_chars_rs ..
  · rw [draw_space_rs]
    exact draw_chars_rs ..

theorem draw_field_tail_nonpos (v : View) (t : LineType) (s : List Char)
    {max : Int} (col : Nat) (trim : Bool) (hcol : col = v.col) (h1 : max ≤ 0) :
    (draw_field_tail v t s max col trim).2.col = v.col ∧
    (draw_field_tail v t s max col trim).1 = decide (VIEW_MAX_LEN v ≤ 0) := by
  unfold draw_field_tail
  rw [draw_chars_nonpos v t s trim (by omega)]
  by_cases hfull : VIEW_MAX_LEN v ≤ 0
  · rw [if_pos (by simpa using hfull)]
    simp [hfull]
  · rw [if_neg (by simpa using hfull)]
    have hsp := @draw_space_spec v LineType.DEFAULT
      (max - ((v.col : Int) - (col : Int))) max
      (by rw [hcol]; clear * - h1 hfull; omega)
    have hm : (min (max - ((v.col : Int) - (col : Int))) max).toNat = 0 := by
      rw [hcol]
      clear * - h1
      omega
    refine ⟨?_, ?_⟩
    · rw [hsp.1, hm]
      simp
    · rw [hsp.2.1, hm]
      simp [hfull]


theorem draw_field_tail_pos (v : View) (t : LineType) (s : List Char)
    {max : Int} (col : Nat) (trim : Bool) (hcol : col = v.col) (h1 : 0 < max)
    (h2 : max ≤ VIEW_MAX_LEN v) :
    (draw_field_tail v t s max col trim).2.col = v.col + max.toNat ∧
    (draw_field_tail v t s max col trim).1 = decide (VIEW_MAX_LEN v ≤ max) := by
  unfold draw_field_tail
  have hcolc := draw_chars_col v t s (max - 1) trim
  have hadv := charsAdv_le v s (max - 1) trim
  have hrs := draw_chars_rs v t s (max - 1) trim
  have hml := VIEW_MAX_LEN_of_rs hrs
  have hmlv : VIEW_MAX_LEN (draw_chars v t s (max - 1) trim).2 =
      VIEW_MAX_LEN v - charsAdv v s (max - 1) trim := by
    rw [hml, hcolc]
    unfold VIEW_MAX_LEN
    push_cast
    ring
  have hret := draw_chars_ret v t s (max - 1) trim
  have hnotfull : ¬ ((draw_chars v t s (max - 1) trim).1 = true) := by
    rw [hret, decide_eq_true_iff, hmlv]
    clear * - h1 h2 hadv
    omega
  dsimp only
  set C := draw_chars v t s (max - 1) trim with hC
  clear_value C
  clear hC hret hrs hml
  rw [if_neg hnotfull]
  clear hnotfull
  have hadv2 : ((charsAdv v s (max - 1) trim : Nat) : Int) ≤ max - 1 := by
    clear * - h1 hadv
    omega
  have hX : max - (((v.col + charsAdv v s (max - 1) trim : Nat) : Int) -
      (v.col : Int)) = max - ((charsAdv v s (max - 1) trim : Nat) : Int) := by
    push_cast
    ring
  have hsp := @draw_space_spec C.2 LineType.DEFAULT
    (max - ((C.2.col : Int) - (col : Int))) max
    (by
      rw [hmlv, hcolc, hcol, hX, min_eq_left (by clear * - hadv2; omega)]
      clear * - h2
      omega)
  have hmin : (min (max - ((C.2.col : Int) - (col : Int))) max) =
      max - charsAdv v s (max - 1) trim := by
    rw [hcolc, hcol, hX, min_eq_left (by clear * - hadv2; omega)]
  refine ⟨?_, ?_⟩
  · rw [hsp.1, hmin, hcolc, Nat.add_assoc]
    have h := toNat_split ((charsAdv v s (max - 1) trim : Nat) : Int) max
      (Int.natCast_nonneg _) (by clear * - hadv2; omega)
    rw [Int.toNat_natCast] at h
    rw [h]
  · rw [hsp.2.1, hmin, hmlv]
    rw [decide_eq_decide, Int.toNat_of_nonneg (by clear * - hadv2; omega)]
    clear * -
    omega

theorem draw_field_rs (v : View) (t : LineType) (text : Option (List Char))
    (w : Nat) (al : Align) (trim : Bool) :
    rs (draw_field v t text w al trim).2 = rs v := by
  unfold draw_field
  rcases text with - | s
  · exact draw_space_rs ..
  · dsimp only
    split
    · split
      · split
        · exact draw_space_rs ..
        · rw [draw_field_tail_rs]
          exact draw_space_rs ..
      · exact draw_field_tail_rs ..
    · exact draw_field_tail_rs ..

/-- The central layout arithmetic of `draw_field`: the column cursor advances
by exactly `min(VIEW_MAX_LEN, width+1)` cells (clamped at zero), and the
viewport-full result is reported exactly when the remaining width was at most
`width+1`. -/
theorem draw_field_spec (v : View) (t : LineType) (text : Option (List Char))
    (w : Nat) (al : Align) (trim : Bool) :
    (draw_field v t text w al trim).2.col =
      v.col + (min (VIEW_MAX_LEN v) ((w : Int) + 1)).toNat ∧
    (draw_field v t text w al trim).1 =
      decide (VIEW_MAX_LEN v ≤ (w : Int) + 1) := by
  unfold draw_field
  rcases text with - | s
  · set m0 := min (VIEW_MAX_LEN v) ((w : Int) + 1) with hm0
    clear_value m0
    have h1 : m0 ≤ VIEW_MAX_LEN v := by rw [hm0]; exact inf_le_left
    have h2 : m0 ≤ (w : Int) + 1 := by rw [hm0]; exact inf_le_right
    have h3 : m0 = VIEW_MAX_LEN v ∨ m0 = (w : Int) + 1 := by
      rw [hm0]; exact min_choice _ _
    have hsp := @draw_space_spec v t m0 m0 (by rw [min_self]; exact h1)
    rw [min_self] at hsp
    refine ⟨hsp.1, ?_⟩
    rw [hsp.2.1, decide_eq_decide]
    by_cases hs0 : (0 : Int) ≤ m0
    · rw [Int.toNat_of_nonneg hs0]
      constructor
      · intro h
        exact h.trans h2
      · intro h
        rcases h3 with he | he
        · exact he.ge
        · exact le_of_le_of_eq h he.symm
    · rw [Int.toNat_of_nonpos (le_of_not_le hs0), Nat.cast_zero]
      have h0 : m0 ≤ 0 := le_of_not_le hs0
      have hw : (0 : Int) ≤ (w : Int) + 1 :=
        add_nonneg (Int.natCast_nonneg w) (by decide)
      constructor
      · intro h
        exact h.trans hw
      · intro h
        rcases h3 with he | he
        · exact he ▸ h0
        · exact h.trans (he ▸ h0)
  · dsimp only
    split
    · -- ALIGN_RIGHT
      split
      · rename_i hlp
        -- leftpad > 0
        have htl : 0 ≤ utf8_width_max s (min (VIEW_MAX_LEN v) ((w : Int) + 1)) :=
          utf8_width_max_nonneg ..
        set M := VIEW_MAX_LEN v with hM
        set mx := min M ((w : Int) + 1) with hmx
        set tl := utf8_width_max s mx with htl'
        clear_value M mx tl
        have hmxM : mx ≤ M := by rw [hmx]; exact inf_le_left
        have hmxw : mx ≤ (w : Int) + 1 := by rw [hmx]; exact inf_le_right
        have hmxc : mx = M ∨ mx = (w : Int) + 1 := by
          rw [hmx]; exact min_choice _ _
        have hmxpos : 0 < mx := by clear * - hlp htl; omega
        have hlpmx : mx - tl - 1 < mx := by clear * - htl; omega
        have hsp := @draw_space_spec v t (mx - tl - 1) (mx - tl - 1)
          (by rw [min_self, ← hM]; exact hlpmx.le.trans hmxM)
        have hlpt : ((mx - tl - 1).toNat : Int) = mx - tl - 1 :=
          Int.toNat_of_nonneg (by clear * - hlp; omega)
        have hretf : (draw_space v t (mx - tl - 1) (mx - tl - 1)).1 = false := by
          rw [hsp.2.1, decide_eq_false_iff_not]
          rw [min_self, hlpt]
          exact not_le.mpr (lt_of_lt_of_le hlpmx (hmxM.trans hM.le))
        rw [if_neg (by simp [hretf])]
        have hrs := draw_space_rs v t (mx - tl - 1) (mx - tl - 1)
        have hml2 := VIEW_MAX_LEN_of_rs hrs
        have hcol2 := hsp.1
        rw [min_self] at hcol2
        have hmlv : VIEW_MAX_LEN (draw_space v t (mx - tl - 1) (mx - tl - 1)).2 =
            M - (mx - tl - 1) := by
          rw [hml2, hcol2, hM]
          unfold VIEW_MAX_LEN
          push_cast
          rw [hlpt]
          ring
        clear hml2 hretf hsp
        set S := draw_space v t (mx - tl - 1) (mx - tl - 1) with hS
        clear_value S
        clear hS hrs
        have htail := @draw_field_tail_pos S.2
          t s (mx - (mx - tl - 1)) (v.col + (mx - tl - 1).toNat) trim
          (by rw [hcol2]) (by clear * - htl; omega)
          (by rw [hmlv]; exact sub_le_sub_right hmxM _)
        refine ⟨?_, ?_⟩
        · rw [htail.1, hcol2, Nat.add_assoc,
            toNat_split (mx - tl - 1) mx (by clear * - hlp; omega)
              (by clear * - htl; omega)]
        · rw [htail.2, hmlv, decide_eq_decide, sub_le_sub_iff_right]
          constructor
          · intro h
            exact h.trans hmxw
          · intro h
            rcases hmxc with he | he
            · exact he.ge
            · exact le_of_le_of_eq h he.symm
      · -- leftpad ≤ 0
        by_cases hmx : 0 < min (VIEW_MAX_LEN v) ((w : Int) + 1)
        · have htail := @draw_field_tail_pos v t s
            (min (VIEW_MAX_LEN v) ((w : Int) + 1)) v.col trim rfl hmx
            inf_le_left
          refine ⟨htail.1, ?_⟩
          rw [htail.2, decide_eq_decide]
          exact ⟨fun h => h.trans inf_le_right, fun h => le_inf le_rfl h⟩
        · have h0 : min (VIEW_MAX_LEN v) ((w : Int) + 1) ≤ 0 := le_of_not_lt hmx
          have h3 : min (VIEW_MAX_LEN v) ((w : Int) + 1) = VIEW_MAX_LEN v ∨
              min (VIEW_MAX_LEN v) ((w : Int) + 1) = (w : Int) + 1 := min_choice _ _
          have htail := @draw_field_tail_nonpos v t s
            (min (VIEW_MAX_LEN v) ((w : Int) + 1)) v.col trim rfl h0
          refine ⟨?_, ?_⟩
          · rw [htail.1, Int.toNat_of_nonpos h0]
            simp
          · rw [htail.2, decide_eq_decide]
            have hw : (0 : Int) ≤ (w : Int) + 1 :=
              add_nonneg (Int.natCast_nonneg w) (by decide)
            constructor
            · intro h
              exact h.trans hw
            · intro h
              rcases h3 with he | he
              · exact he ▸ h0
              · exact h.trans (he ▸ h0)
    · -- ALIGN_LEFT
      by_cases hmx : 0 < min (VIEW_MAX_LEN v) ((w : Int) + 1)
      · have htail := @draw_field_tail_pos v t s
          (min (VIEW_MAX_LEN v) ((w : Int) + 1)) v.col trim rfl hmx
          inf_le_left
        refine ⟨htail.1, ?_⟩
        rw [htail.2, decide_eq_decide]
        exact ⟨fun h => h.trans inf_le_right, fun h => le_inf le_rfl h⟩
      · have h0 : min (VIEW_MAX_LEN v) ((w : Int) + 1) ≤ 0 := le_of_not_lt hmx
        have h3 : min (VIEW_MAX_LEN v) ((w : Int) + 1) = VIEW_MAX_LEN v ∨
            min (VIEW_MAX_LEN v) ((w : Int) + 1) = (w : Int) + 1 := min_choice _ _
        have htail := @draw_field_tail_nonpos v t s
          (min (VIEW_MAX_LEN v) ((w : Int) + 1)) v.col trim rfl h0
        refine ⟨?_, ?_⟩
        · rw [htail.1, Int.toNat_of_nonpos h0]
          simp
        · rw [htail.2, decide_eq_decide]
          have hw : (0 : Int) ≤ (w : Int) + 1 :=
            add_nonneg (Int.natCast_nonneg w) (by decide)
          constructor
          · intro h
            exact h.trans hw
          · intro h
            rcases h3 with he | he
            · exact he ▸ h0
            · exact h.trans (he ▸ h0)

theorem draw_graphic_rs (v : View) (t : LineType) (g : List Nat) (size : Nat)
    (sep : Bool) : rs (draw_graphic v t g size sep).2 = rs v := by
  unfold draw_graphic
  dsimp only
  split <;> simp [rs]

theorem draw_graphic_col (v : View) (t : LineType) (g : List Nat) (size : Nat)
    (sep : Bool) :
    (draw_graphic v t g size sep).2.col =
      v.col + (if 0 ≤ VIEW_MAX_LEN v ∧ VIEW_MAX_LEN v < (size : Int) then
        (VIEW_MAX_LEN v).toNat else size) + (if sep then 1 else 0) := by
  unfold draw_graphic
  dsimp only
  split <;> simp

theorem draw_graphic_ret (v : View) (t : LineType) (g : List Nat) (size : Nat)
    (sep : Bool) :
    (draw_graphic v t g size sep).1 =
      decide (VIEW_MAX_LEN (draw_graphic v t g size sep).2 ≤ 0) := by
  unfold draw_graphic
  dsimp only
  split <;> rfl

theorem string_expand_consumes (dstlen tab : Nat) (s : List Char) (h : s ≠ [])
    (h2 : 2 ≤ dstlen) : 1 ≤ (string_expand dstlen tab s).2 := by
  rcases s with - | ⟨c, rest⟩
  · exact absurd rfl h
  · unfold string_expand string_expand_loop
    rw [if_pos (by omega)]
    simp

theorem draw_text_expanded_total (cfg : Config) (t : LineType) (ml : Int)
    (til : Bool) : ∀ fuel s, s.length + 1 ≤ fuel → ∀ v,
      (draw_text_expanded cfg v t s ml til fuel).isSome := by
  intro fuel
  induction fuel with
  | zero => intro s h; omega
  | succ fuel ih =>
    intro s h v
    unfold draw_text_expanded
    dsimp only
    split
    · simp
    · split
      · simp
      · rename_i hne
        apply ih
        have hnil : s ≠ [] := by
          intro hs
          subst hs
          simp at hne
        have := string_expand_consumes SIZEOF_STR cfg.tab_size s hnil
          (by unfold SIZEOF_STR; omega)
        have hlen := List.length_drop (string_expand SIZEOF_STR cfg.tab_size s).2 s
        have hpos : 0 < s.length := List.length_pos.mpr hnil
        omega

theorem draw_text_expanded_rs (cfg : Config) (t : LineType) (ml : Int)
    (til : Bool) : ∀ fuel s v r,
      draw_text_expanded cfg v t s ml til fuel = some r → rs r.2 = rs v := by
  intro fuel
  induction fuel with
  | zero => intro s v r h; exact absurd h (by simp [draw_text_expanded])
  | succ fuel ih =>
    intro s v r h
    unfold draw_text_expanded at h
    dsimp only at h
    split at h
    · obtain rfl := Option.some_injective _ h
      exact draw_chars_rs ..
    · split at h
      · obtain rfl := Option.some_injective _ h
        exact draw_chars_rs ..
      · rw [ih _ _ _ h]
        exact draw_chars_rs ..

theorem draw_text_rs (cfg : Config) (v : View) (t : LineType) (s : List Char) :
    rs (draw_text cfg v t s).2 = rs v := by
  unfold draw_text
  rcases hr : draw_text_expanded cfg v t s (VIEW_MAX_LEN v) true (s.length + 1) with - | r
  · rfl
  · rw [Option.getD_some]
    exact draw_text_expanded_rs cfg t (VIEW_MAX_LEN v) true _ s v r hr

theorem string_expand_loop_id (dstlen tab : Nat) :
    ∀ s size, (∀ c ∈ s, c ≠ '\t') → size + s.length ≤ dstlen - 1 →
      string_expand_loop dstlen tab s size = (s, s.length) := by
  intro s
  induction s with
  | nil => intro size h1 h2; rfl
  | cons c rest ih =>
    intro size h1 h2
    unfold string_expand_loop
    rw [if_pos (by simp at h2 ⊢; omega)]
    have hc : ¬ (c = '\t') := h1 c (by simp)
    simp only [if_neg hc]
    rw [ih (size + 1) (fun x hx => h1 x (by simp [hx])) (by simp at h2 ⊢; omega)]
    simp

theorem string_expand_id (dstlen tab : Nat) (s : List Char)
    (h1 : ∀ c ∈ s, c ≠ '\t') (h2 : s.length + 1 ≤ dstlen) :
    string_expand dstlen tab s = (s, s.length) := by
  unfold string_expand
  exact string_expand_loop_id dstlen tab s 0 h1 (by omega)

theorem draw_text_eq_chars (cfg : Config) (v : View) (t : LineType)
    (s : List Char) (h1 : ∀ c ∈ s, c ≠ '\t') (h2 : s.length + 1 ≤ SIZEOF_STR) :
    draw_text cfg v t s = draw_chars v t s (VIEW_MAX_LEN v) true := by
  have hret := draw_chars_ret v t s (VIEW_MAX_LEN v) true
  unfold draw_text draw_text_expanded
  dsimp only
  rw [string_expand_id SIZEOF_STR cfg.tab_size s h1 h2]
  dsimp only
  split
  · rename_i hfull
    rw [Option.getD_some, Prod.ext_iff]
    exact ⟨hfull.symm, rfl⟩
  · rename_i hfull
    rw [if_pos (by simp), Option.getD_some, Prod.ext_iff]
    exact ⟨hret.symm, rfl⟩

theorem draw_text_short (cfg : Config) (v : View) (t : LineType) (s : List Char)
    (h1 : ∀ c ∈ s, c ≠ '\t') (h2 : s.length + 1 ≤ SIZEOF_STR)
    (hfit : (s.length : Int) ≤ VIEW_MAX_LEN v) :
    (draw_text cfg v t s).2.col = v.col + s.length ∧
    (draw_text cfg v t s).1 = decide (VIEW_MAX_LEN v ≤ (s.length : Int)) := by
  rw [draw_text_eq_chars cfg v t s h1 h2]
  by_cases hml : VIEW_MAX_LEN v ≤ 0
  · have hs0 : s.length = 0 := by clear * - hml hfit; omega
    rw [draw_chars_nonpos v t s true hml]
    refine ⟨by simp [hs0], ?_⟩
    rw [decide_eq_decide]
    clear * - hml hs0
    omega
  · have hcol := draw_chars_col v t s (VIEW_MAX_LEN v) true
    rw [charsAdv_fits v s true (by clear * - hml; omega)
      (by clear * - hml hfit; omega)] at hcol
    refine ⟨hcol, ?_⟩
    rw [draw_chars_ret]
    have hml2 := VIEW_MAX_LEN_of_rs (draw_chars_rs v t s (VIEW_MAX_LEN v) true)
    rw [hml2, hcol, decide_eq_decide]
    unfold VIEW_MAX_LEN
    clear * -
    push_cast
    omega

theorem graph_glyph_ascii (sym : GraphSymbol) (d : Nat) :
    (∀ c ∈ (graph_symbol_to_ascii sym).drop d, c ≠ '\t') ∧
    ((graph_symbol_to_ascii sym).drop d).length = 2 - d := by
  rcases sym with ⟨cm, i⟩
  cases cm <;> rcases d with - | ⟨- | d⟩ <;> simp [graph_symbol_to_ascii]

theorem graph_glyph_utf8 (sym : GraphSymbol) (d : Nat) :
    (∀ c ∈ (graph_symbol_to_utf8 sym).drop d, c ≠ '\t') ∧
    ((graph_symbol_to_utf8 sym).drop d).length = 2 - d := by
  rcases sym with ⟨cm, i⟩
  cases cm <;> rcases d with - | ⟨- | d⟩ <;> simp [graph_symbol_to_utf8]

/-- One graph symbol advances the cursor by 2 cells (1 for the first of the
row), identically under all three strategies, and reports viewport-full
exactly when the remaining width is exhausted by it. -/
theorem draw_graph_fn_step (cfg : Config) (v : View) (sym : GraphSymbol)
    (color : LineType) (first : Bool)
    (hroom : ((2 - (if first then 1 else 0) : Nat) : Int) ≤ VIEW_MAX_LEN v) :
    (draw_graph_fn cfg.line_graphics cfg v sym color first).2.col =
      v.col + (2 - (if first then 1 else 0)) ∧
    (draw_graph_fn cfg.line_graphics cfg v sym color first).1 =
      decide (VIEW_MAX_LEN v ≤ ((2 - (if first then 1 else 0) : Nat) : Int)) ∧
    rs (draw_graph_fn cfg.line_graphics cfg v sym color first).2 = rs v := by
  rcases hmode : cfg.line_graphics with - | - | -
  · -- ascii
    unfold draw_graph_fn draw_graph_ascii
    have hg := graph_glyph_ascii sym (if first then 1 else 0)
    have hs := draw_text_short cfg v color
      ((graph_symbol_to_ascii sym).drop (if first then 1 else 0)) hg.1
      (by rw [hg.2]; unfold SIZEOF_STR; omega) (by rw [hg.2]; exact_mod_cast hroom)
    rw [hg.2] at hs
    exact ⟨hs.1, hs.2, draw_text_rs ..⟩
  · -- chtype
    unfold draw_graph_fn draw_graph_chtype
    have hcol := draw_graphic_col v color
      ((graph_symbol_to_chtype sym).drop (if first then 1 else 0))
      (2 - (if first then 1 else 0)) false
    have hsz : ¬ (0 ≤ VIEW_MAX_LEN v ∧
        VIEW_MAX_LEN v < ((2 - (if first then 1 else 0) : Nat) : Int)) := by
      push_neg
      intro h
      exact_mod_cast hroom
    rw [if_neg hsz] at hcol
    have hrs := draw_graphic_rs v color
      ((graph_symbol_to_chtype sym).drop (if first then 1 else 0))
      (2 - (if first then 1 else 0)) false
    refine ⟨by simpa using hcol, ?_, hrs⟩
    rw [draw_graphic_ret]
    have hml2 := VIEW_MAX_LEN_of_rs hrs
    rw [hml2, decide_eq_decide]
    have : (draw_graphic v color
        ((graph_symbol_to_chtype sym).drop (if first then 1 else 0))
        (2 - (if first then 1 else 0)) false).2.col =
        v.col + (2 - (if first then 1 else 0)) := by simpa using hcol
    rw [this]
    unfold VIEW_MAX_LEN
    clear * -
    push_cast
    omega
  · -- utf8
    unfold draw_graph_fn draw_graph_utf8
    have hg := graph_glyph_utf8 sym (if first then 1 else 0)
    have hs := draw_text_short cfg v color
      ((graph_symbol_to_utf8 sym).drop (if first then 1 else 0)) hg.1
      (by rw [hg.2]; unfold SIZEOF_STR; omega) (by rw [hg.2]; exact_mod_cast hroom)
    rw [hg.2] at hs
    exact ⟨hs.1, hs.2, draw_text_rs ..⟩

theorem draw_graph_loop_spec (cfg : Config) : ∀ (rest : List GraphSymbol) (v : View),
    ((2 * rest.length + 1 : Nat) : Int) ≤ VIEW_MAX_LEN v →
    (draw_graph_loop cfg v rest false).2.col = v.col + (2 * rest.length + 1) ∧
    rs (draw_graph_loop cfg v rest false).2 = rs v := by
  intro rest
  induction rest with
  | nil =>
    intro v hroom
    unfold draw_graph_loop
    have hs := draw_text_short cfg v LineType.DEFAULT [' ']
      (by intro c hc; simp_all) (by norm_num [SIZEOF_STR])
      (by simp at hroom ⊢; omega)
    exact ⟨by simp at hs ⊢; omega, draw_text_rs ..⟩
  | cons sym rest ih =>
    intro v hroom
    unfold draw_graph_loop
    have hstep := draw_graph_fn_step cfg v sym (get_graph_color sym) false
      (by simp at hroom ⊢; omega)
    norm_num at hstep
    have hret : (draw_graph_fn cfg.line_graphics cfg v sym (get_graph_color sym)
        false).1 = false := by
      rw [hstep.2.1, decide_eq_false_iff_not]
      simp at hroom ⊢
      omega
    rw [if_neg (by simp [hret])]
    have hml2 := VIEW_MAX_LEN_of_rs hstep.2.2
    have hm3 : ((2 * rest.length + 1 : Nat) : Int) ≤
        VIEW_MAX_LEN (draw_graph_fn cfg.line_graphics cfg v sym
          (get_graph_color sym) false).2 := by
      rw [hml2, hstep.1]
      unfold VIEW_MAX_LEN at hroom
      simp only [List.length_cons] at hroom
      push_cast at hroom ⊢
      omega
    have hrec := ih (draw_graph_fn cfg.line_graphics cfg v sym
      (get_graph_color sym) false).2 hm3
    refine ⟨?_, by rw [hrec.2, hstep.2.2]⟩
    rw [hrec.1, hstep.1]
    simp
    ring

/-- Cell-count of `draw_graph`: a canvas of `n ≥ 1` symbols advances the
cursor by `1 + 2*(n-1)` glyph cells plus one trailing blank, whatever the
strategy. -/
theorem draw_graph_spec (cfg : Config) (v : View) (canvas : List GraphSymbol)
    (hne : canvas ≠ [])
    (hroom : ((2 * canvas.length : Nat) : Int) ≤ VIEW_MAX_LEN v) :
    (draw_graph cfg v canvas).2.col =
      v.col + (1 + 2 * (canvas.length - 1) + 1) ∧
    rs (draw_graph cfg v canvas).2 = rs v := by
  rcases canvas with - | ⟨sym, rest⟩
  · exact absurd rfl hne
  · unfold draw_graph draw_graph_loop
    have hstep := draw_graph_fn_step cfg v sym (get_graph_color sym) true
      (by simp at hroom ⊢; omega)
    norm_num at hstep
    have hret : (draw_graph_fn cfg.line_graphics cfg v sym (get_graph_color sym)
        true).1 = false := by
      rw [hstep.2.1, decide_eq_false_iff_not]
      simp at hroom ⊢
      omega
    rw [if_neg (by simp [hret])]
    have hml2 := VIEW_MAX_LEN_of_rs hstep.2.2
    have hm3 : ((2 * rest.length + 1 : Nat) : Int) ≤
        VIEW_MAX_LEN (draw_graph_fn cfg.line_graphics cfg v sym
          (get_graph_color sym) true).2 := by
      rw [hml2, hstep.1]
      unfold VIEW_MAX_LEN at hroom
      simp only [List.length_cons] at hroom
      push_cast at hroom ⊢
      omega
    have hrec := draw_graph_loop_spec cfg rest
      (draw_graph_fn cfg.line_graphics cfg v sym (get_graph_color sym) true).2 hm3
    refine ⟨?_, by rw [hrec.2, hstep.2.2]⟩
    rw [hrec.1, hstep.1]
    simp
    ring

theorem draw_graph_loop_rs (cfg : Config) : ∀ (rest : List GraphSymbol)
    (v : View) (first : Bool), rs (draw_graph_loop cfg v rest first).2 = rs v := by
  intro rest
  induction rest with
  | nil => intro v first; exact draw_text_rs ..
  | cons sym rest ih =>
    intro v first
    unfold draw_graph_loop
    dsimp only
    have hrs : rs (draw_graph_fn cfg.line_graphics cfg v sym
        (get_graph_color sym) first).2 = rs v := by
      rcases cfg.line_graphics with - | - | -
      · exact draw_text_rs ..
      · exact draw_graphic_rs ..
      · exact draw_text_rs ..
    split
    · exact hrs
    · rw [ih, hrs]

theorem draw_graph_rs (cfg : Config) (v : View) (canvas : List GraphSymbol) :
    rs (draw_graph cfg v canvas).2 = rs v :=
  draw_graph_loop_rs cfg canvas v true

theorem draw_date_rs (cfg : Config) (v : View) (time : Option Nat) :
    rs (draw_date cfg v time).2 = rs v := by
  unfold draw_date
  dsimp only
  split_ifs <;> first | rfl | exact draw_field_rs ..

theorem draw_author_rs (cfg : Config) (v : View) (author : Option (List Char))
    (width : Nat) : rs (draw_author cfg v author width).2 = rs v := by
  unfold draw_author
  dsimp only
  split_ifs <;> first | rfl | exact draw_field_rs ..

theorem draw_id_custom_rs (v : View) (t : LineType) (id : Option (List Char))
    (width : Nat) : rs (draw_id_custom v t id width).2 = rs v :=
  draw_field_rs ..

theorem draw_id_rs (cfg : Config) (v : View) (id : Option (List Char)) :
    rs (draw_id cfg v id).2 = rs v := by
  unfold draw_id
  split_ifs <;> first | rfl | exact draw_id_custom_rs ..

theorem draw_filename_rs (cfg : Config) (v : View) (fn : Option (List Char))
    (auto_enabled : Bool) (mode width : Nat) :
    rs (draw_filename cfg v fn auto_enabled mode width).2 = rs v := by
  unfold draw_filename
  dsimp only
  split_ifs <;> first | rfl | exact draw_field_rs ..

theorem draw_file_size_rs (cfg : Config) (v : View) (size width : Nat)
    (pad : Bool) : rs (draw_file_size cfg v size width pad).2 = rs v := by
  unfold draw_file_size
  dsimp only
  split_ifs <;> first | rfl | exact draw_field_rs ..

theorem draw_mode_rs (v : View) (mode : Nat) : rs (draw_mode v mode).2 = rs v :=
  draw_field_rs ..

theorem draw_lineno_custom_rs (cfg : Config) (v : View) (lineno : Nat)
    (showNo : Bool) (interval : Nat) :
    rs (draw_lineno_custom cfg v lineno showNo interval).2 = rs v := by
  unfold draw_lineno_custom
  dsimp only
  split_ifs <;> try rfl
  all_goals
    split <;> (rw [draw_graphic_rs]; first | exact draw_chars_rs .. | exact draw_space_rs ..)

theorem draw_lineno_rs (cfg : Config) (v : View) (lineno : Nat) :
    rs (draw_lineno cfg v lineno).2 = rs v :=
  draw_lineno_custom_rs ..

theorem draw_refs_loop_rs (cfg : Config) : ∀ (refs : List Ref) (v : View),
    rs (draw_refs_loop cfg v refs).2 = rs v := by
  intro refs
  induction refs with
  | nil => intro v; rfl
  | cons ref rest ih =>
    intro v
    unfold draw_refs_loop
    dsimp only
    split
    · exact draw_text_rs ..
    · split
      · rw [draw_text_rs]
        exact draw_text_rs ..
      · rw [ih, draw_text_rs]
        exact draw_text_rs ..

theorem draw_refs_rs (cfg : Config) (v : View) (refs : Option (List Ref)) :
    rs (draw_refs cfg v refs).2 = rs v := by
  unfold draw_refs
  split
  · rfl
  · split
    · rfl
    · exact draw_refs_loop_rs ..

theorem draw_commit_title_rs (cfg : Config) (v : View) (text : List Char)
    (offset : Nat) : rs (draw_commit_title cfg v text offset).2 = rs v :=
  draw_text_rs ..

theorem view_columns_draw_col_rs (cfg : Config) (v : View) (line : Line)
    (lineno : Nat) (columns : ViewColumns) (c : ViewColumn × Nat) :
    rs (view_columns_draw_col cfg v line lineno columns c).2 = rs v := by
  rcases c with ⟨col, width⟩
  rcases col
  · exact draw_date_rs ..
  · exact draw_author_rs ..
  · exact draw_field_rs ..
  · -- ID
    unfold view_columns_draw_col
    dsimp only
    by_cases hw : width = 0
    · simp only [if_pos hw]
      split
      · exact draw_id_rs ..
      · split
        · rw [draw_id_custom_rs]
          exact draw_id_rs ..
        · exact draw_id_rs ..
    · simp only [if_neg hw]
      split
      · rfl
      · split
        · exact draw_id_custom_rs ..
        · rfl
  · exact draw_lineno_rs ..
  · exact draw_mode_rs ..
  · exact draw_file_size_rs ..
  · -- COMMIT_TITLE
    unfold view_columns_draw_col
    dsimp only
    have hg : rs ((match columns.graph with
        | some canvas => draw_graph cfg v canvas
        | none => (false, v)).2) = rs v := by
      rcases columns.graph with - | canvas
      · rfl
      · exact draw_graph_rs ..
    split
    · exact hg
    · have hr : ∀ u : View, rs ((match columns.refs with
          | some _ => draw_refs cfg u columns.refs
          | none => (false, u)).2) = rs u := by
        intro u
        rcases columns.refs with - | refs
        · rfl
        · exact draw_refs_rs ..
      split
      · rw [hr]
        exact hg
      · rw [draw_commit_title_rs, hr]
        exact hg
  · exact draw_filename_rs ..
  · exact draw_text_rs ..

theorem view_columns_draw_loop_rs (cfg : Config) (line : Line) (lineno : Nat)
    (columns : ViewColumns) : ∀ (cols : List (ViewColumn × Nat)) (v : View),
    rs (view_columns_draw_loop cfg line lineno columns v cols).2 = rs v := by
  intro cols
  induction cols with
  | nil => intro v; rfl
  | cons c rest ih =>
    intro v
    unfold view_columns_draw_loop
    dsimp only
    split
    · exact view_columns_draw_col_rs ..
    · rw [ih]
      exact view_columns_draw_col_rs ..

theorem view_columns_draw_rs (cfg : Config) (ops : ViewOps) (v : View)
    (line : Line) (lineno : Nat) :
    rs (view_columns_draw cfg ops v line lineno).2 = rs v := by
  unfold view_columns_draw
  split
  · rfl
  · exact view_columns_draw_loop_rs ..

theorem view_columns_draw_loop_true (cfg : Config) (line : Line) (lineno : Nat)
    (columns : ViewColumns) : ∀ (cols : List (ViewColumn × Nat)) (v : View),
    (view_columns_draw_loop cfg line lineno columns v cols).1 = true := by
  intro cols
  induction cols with
  | nil => intro v; rfl
  | cons c rest ih =>
    intro v
    unfold view_columns_draw_loop
    dsimp only
    split
    · rfl
    · exact ih _

/-!
Scheduler-level reference definitions: which rows a dirty scan paints, and
what painting does to the line flags.
-/

/-- The flag update `draw_view_line` performs on the row at relative index
`i`: clear `dirty` and `cleareol`, set `selected` exactly when this row's
absolute index is the cursor line. -/
def clearLine (pos : Pos) (lines : List Line) (i : Nat) : List Line :=
  lines.set (pos.offset + i)
    { (lines.getD (pos.offset + i) dfltLine) with
      selected := decide (pos.offset + i = pos.lineno),
      dirty := false, cleareol := false }

/-- Fold `clearLine` over a list of row indices (the rows a scan paints). -/
def paintRows (pos : Pos) (lines : List Line) (is : List Nat) : List Line :=
  is.foldl (clearLine pos) lines

/-- The relative row indices at or after `start` that the dirty scan visits
and finds dirty: within the visible height, stopping at the first row beyond
the materialized lines. -/
def dirtyRowsFrom (v : View) (start : Nat) : List Nat :=
  if start < v.height then
    if v.pos.offset + start < v.line.length then
      (if (v.line.getD (v.pos.offset + start) dfltLine).dirty then [start] else [])
        ++ dirtyRowsFrom v (start + 1)
    else []
  else []
termination_by v.height - start

/-- The rows a full dirty scan paints, in scan order. -/
def dirtyRows (v : View) : List Nat :=
  dirtyRowsFrom v 0

/-- A well-behaved row source: its draw callback reports every row as drawn
(as `view_columns_draw` does) and neither callback touches the view's rows,
geometry, refresh count or paint log. -/
def srcOK (src : RowSource) : Prop :=
  (∀ v l n, (src.draw v l n).1 = true ∧ rs (src.draw v l n).2 = rs v) ∧
  (∀ v l, rs (src.select v l) = rs v)

theorem getD_set_ne (l : List Line) {i j : Nat} (a d : Line) (h : i ≠ j) :
    (l.set i a).getD j d = l.getD j d := by
  simp [List.getD, List.getElem?_set_ne h]

theorem getD_set_self (l : List Line) {i : Nat} (a d : Line) (h : i < l.length) :
    (l.set i a).getD i d = a := by
  simp [List.getD, List.getElem?_set_self', List.getElem?_eq_getElem h]

theorem clearLine_length (pos : Pos) (lines : List Line) (i : Nat) :
    (clearLine pos lines i).length = lines.length := by
  simp [clearLine]

theorem clearLine_getD_ne (pos : Pos) (lines : List Line) (i : Nat) {j : Nat}
    (h : pos.offset + i ≠ j) :
    (clearLine pos lines i).getD j dfltLine = lines.getD j dfltLine := by
  unfold clearLine
  exact getD_set_ne _ _ _ h

theorem paintRows_length (pos : Pos) : ∀ (is : List Nat) (lines : List Line),
    (paintRows pos lines is).length = lines.length := by
  intro is
  induction is with
  | nil => intro lines; rfl
  | cons i rest ih =>
    intro lines
    unfold paintRows
    rw [List.foldl_cons]
    rw [show List.foldl (clearLine pos) (clearLine pos lines i) rest =
      paintRows pos (clearLine pos lines i) rest from rfl]
    rw [ih, clearLine_length]

theorem paintRows_getD_of_ne (pos : Pos) {j : Nat} :
    ∀ (is : List Nat) (lines : List Line), (∀ i ∈ is, pos.offset + i ≠ j) →
    (paintRows pos lines is).getD j dfltLine = lines.getD j dfltLine := by
  intro is
  induction is with
  | nil => intro lines _; rfl
  | cons i rest ih =>
    intro lines h
    unfold paintRows
    rw [List.foldl_cons]
    rw [show List.foldl (clearLine pos) (clearLine pos lines i) rest =
      paintRows pos (clearLine pos lines i) rest from rfl]
    rw [ih (clearLine pos lines i) (fun x hx => h x (by simp [hx]))]
    exact clearLine_getD_ne pos lines i (h i (by simp))

theorem paintRows_getD_mem (pos : Pos) :
    ∀ (is : List Nat) (lines : List Line) (i : Nat), i ∈ is →
    is.Pairwise (· < ·) → pos.offset + i < lines.length →
    (paintRows pos lines is).getD (pos.offset + i) dfltLine =
      { (lines.getD (pos.offset + i) dfltLine) with
        selected := decide (pos.offset + i = pos.lineno),
        dirty := false, cleareol := false } := by
  intro is
  induction is with
  | nil => intro lines i h; simp at h
  | cons a rest ih =>
    intro lines i hmem hpw hlt
    unfold paintRows
    rw [List.foldl_cons]
    rw [show List.foldl (clearLine pos) (clearLine pos lines a) rest =
      paintRows pos (clearLine pos lines a) rest from rfl]
    rcases List.mem_cons.mp hmem with rfl | hrest
    · have hne : ∀ x ∈ rest, pos.offset + x ≠ pos.offset + i := by
        intro x hx
        have := (List.pairwise_cons.mp hpw).1 x hx
        omega
      rw [paintRows_getD_of_ne pos rest (clearLine pos lines i) hne]
      unfold clearLine
      exact getD_set_self _ _ _ hlt
    · have hai : a < i := (List.pairwise_cons.mp hpw).1 i hrest
      have hbase : (clearLine pos lines a).getD (pos.offset + i) dfltLine =
          lines.getD (pos.offset + i) dfltLine :=
        clearLine_getD_ne pos lines a (by omega)
      rw [ih (clearLine pos lines a) i hrest (List.pairwise_cons.mp hpw).2
        (by rw [clearLine_length]; exact hlt), hbase]

theorem dirtyRowsFrom_stop (v : View) (start : Nat)
    (h : ¬ (start < v.height ∧ v.pos.offset + start < v.line.length)) :
    dirtyRowsFrom v start = [] := by
  unfold dirtyRowsFrom
  by_cases h1 : start < v.height
  · rw [if_pos h1, if_neg (by tauto)]
  · rw [if_neg h1]

theorem dirtyRowsFrom_step_clean (v : View) (start : Nat)
    (h1 : start < v.height) (h2 : v.pos.offset + start < v.line.length)
    (h3 : ¬ (v.line.getD (v.pos.offset + start) dfltLine).dirty = true) :
    dirtyRowsFrom v start = dirtyRowsFrom v (start + 1) := by
  conv_lhs => rw [dirtyRowsFrom]
  rw [if_pos h1, if_pos h2, if_neg h3]
  rfl

theorem dirtyRowsFrom_step_dirty (v : View) (start : Nat)
    (h1 : start < v.height) (h2 : v.pos.offset + start < v.line.length)
    (h3 : (v.line.getD (v.pos.offset + start) dfltLine).dirty = true) :
    dirtyRowsFrom v start = start :: dirtyRowsFrom v (start + 1) := by
  conv_lhs => rw [dirtyRowsFrom]
  rw [if_pos h1, if_pos h2, if_pos h3]
  rfl

theorem dirtyRowsFrom_mem (v : View) : ∀ (fuel start i : Nat),
    v.height - start < fuel → i ∈ dirtyRowsFrom v start →
    start ≤ i ∧ i < v.height ∧ v.pos.offset + i < v.line.length ∧
      (v.line.getD (v.pos.offset + i) dfltLine).dirty = true := by
  intro fuel
  induction fuel with
  | zero => intro start i h; omega
  | succ fuel ih =>
    intro start i hfuel hmem
    by_cases h1 : start < v.height
    · by_cases h2 : v.pos.offset + start < v.line.length
      · by_cases h3 : (v.line.getD (v.pos.offset + start) dfltLine).dirty = true
        · rw [dirtyRowsFrom_step_dirty v start h1 h2 h3] at hmem
          rcases List.mem_cons.mp hmem with rfl | hrest
          · exact ⟨le_refl _, h1, h2, h3⟩
          · have := ih (start + 1) i (by omega) hrest
            exact ⟨by omega, this.2⟩
        · rw [dirtyRowsFrom_step_clean v start h1 h2 h3] at hmem
          have := ih (start + 1) i (by omega) hmem
          exact ⟨by omega, this.2⟩
      · rw [dirtyRowsFrom_stop v start (by tauto)] at hmem
        simp at hmem
    · rw [dirtyRowsFrom_stop v start (by tauto)] at hmem
      simp at hmem

theorem dirtyRowsFrom_sorted (v : View) : ∀ (fuel start : Nat),
    v.height - start < fuel → (dirtyRowsFrom v start).Pairwise (· < ·) := by
  intro fuel
  induction fuel with
  | zero => intro start h; omega
  | succ fuel ih =>
    intro start hfuel
    by_cases h1 : start < v.height
    · by_cases h2 : v.pos.offset + start < v.line.length
      · by_cases h3 : (v.line.getD (v.pos.offset + start) dfltLine).dirty = true
        · rw [dirtyRowsFrom_step_dirty v start h1 h2 h3]
          rw [List.pairwise_cons]
          refine ⟨?_, ih (start + 1) (by omega)⟩
          intro x hx
          have := dirtyRowsFrom_mem v (fuel + 1) (start + 1) x (by omega) hx
          omega
        · rw [dirtyRowsFrom_step_clean v start h1 h2 h3]
          exact ih (start + 1) (by omega)
      · rw [dirtyRowsFrom_stop v start (by tauto)]
        simp
    · rw [dirtyRowsFrom_stop v start (by tauto)]
      simp

/-- Two views with the same geometry and the same rows at or after `start`
have the same dirty scan from `start`. -/
theorem dirtyRowsFrom_congr (u v : View) (hh : u.height = v.height)
    (hp : u.pos = v.pos) (hl : u.line.length = v.line.length) :
    ∀ (fuel start : Nat), v.height - start < fuel →
    (∀ j, start ≤ j → u.line.getD (u.pos.offset + j) dfltLine =
      v.line.getD (v.pos.offset + j) dfltLine) →
    dirtyRowsFrom u start = dirtyRowsFrom v start := by
  intro fuel
  induction fuel with
  | zero => intro start h; omega
  | succ fuel ih =>
    intro start hfuel hrows
    by_cases h1 : start < v.height
    · by_cases h2 : v.pos.offset + start < v.line.length
      · have hget := hrows start (le_refl _)
        by_cases h3 : (v.line.getD (v.pos.offset + start) dfltLine).dirty = true
        · rw [dirtyRowsFrom_step_dirty u start (by omega) (by rw [hl, hp]; exact h2)
            (by rw [hget]; exact h3)]
          rw [dirtyRowsFrom_step_dirty v start h1 h2 h3]
          rw [ih (start + 1) (by omega) (fun j hj => hrows j (by omega))]
        · rw [dirtyRowsFrom_step_clean u start (by omega) (by rw [hl, hp]; exact h2)
            (by rw [hget]; exact h3)]
          rw [dirtyRowsFrom_step_clean v start h1 h2 h3]
          exact ih (start + 1) (by omega) (fun j hj => hrows j (by omega))
      · rw [dirtyRowsFrom_stop v start (by tauto)]
        rw [dirtyRowsFrom_stop u start (by rw [hh, hl, hp]; tauto)]
    · rw [dirtyRowsFrom_stop v start (by tauto)]
      rw [dirtyRowsFrom_stop u start (by rw [hh]; tauto)]

/-- Effect of `draw_view_line` on a materialized row, for a well-behaved
source: it reports the row drawn and updates exactly the row's flags, the
paint log, and render-only state. -/
theorem draw_view_line_spec (src : RowSource) (hok : srcOK src) (v : View)
    (lineno : Nat) (h : v.pos.offset + lineno < v.line.length) :
    (draw_view_line src v lineno).1 = true ∧
    rs (draw_view_line src v lineno).2 =
      (clearLine v.pos v.line lineno, v.pos, v.width, v.height, v.digits,
       v.refreshes, v.painted ++ [lineno]) := by
  have hd1 : ∀ u l n, (src.draw u l n).1 = true := fun u l n => (hok.1 u l n).1
  have hd2 : ∀ u l n, rs (src.draw u l n).2 = rs u := fun u l n => (hok.1 u l n).2
  have hs2 : ∀ u l, rs (src.select u l) = rs u := hok.2
  unfold draw_view_line
  rw [if_neg (by omega)]
  dsimp only
  by_cases hsel : v.pos.offset + lineno = v.pos.lineno
  · rw [if_pos hsel]
    refine ⟨hd1 .., ?_⟩
    rw [hd2, hs2]
    simp only [rs, line_set_view_attr, pos_set_view_attr, width_set_view_attr,
      height_set_view_attr, digits_set_view_attr, refreshes_set_view_attr,
      painted_set_view_attr]
    rw [List.set_set]
    simp [clearLine, hsel]
  · rw [if_neg hsel]
    refine ⟨hd1 .., ?_⟩
    rw [hd2]
    simp only [rs]
    simp [clearLine, hsel]

theorem rs_tuple_iff {u : View} {a : List Line} {b : Pos} {c d e f : Nat}
    {g : List Nat} :
    rs u = (a, b, c, d, e, f, g) ↔ u.line = a ∧ u.pos = b ∧ u.width = c ∧
      u.height = d ∧ u.digits = e ∧ u.refreshes = f ∧ u.painted = g := by
  simp [rs, Prod.ext_iff]

/-- The dirty-scan loop paints exactly the dirty rows from `lineno` on, in
scan order, and reports whether any dirty row was found. -/
theorem redraw_view_dirty_loop_spec (src : RowSource) (hok : srcOK src) :
    ∀ (fuel : Nat) (v : View) (lineno : Nat) (dirty : Bool),
    v.height - lineno < fuel →
    (redraw_view_dirty_loop src fuel v lineno dirty).1 =
      (dirty || decide (dirtyRowsFrom v lineno ≠ [])) ∧
    rs (redraw_view_dirty_loop src fuel v lineno dirty).2 =
      (paintRows v.pos v.line (dirtyRowsFrom v lineno), v.pos, v.width, v.height,
       v.digits, v.refreshes, v.painted ++ dirtyRowsFrom v lineno) := by
  intro fuel
  induction fuel with
  | zero => intro v lineno dirty h; omega
  | succ fuel ih =>
    intro v lineno dirty hfuel
    unfold redraw_view_dirty_loop
    by_cases h1 : lineno < v.height
    · rw [if_pos h1]
      by_cases h2 : v.line.length ≤ v.pos.offset + lineno
      · rw [if_pos h2]
        rw [dirtyRowsFrom_stop v lineno (by omega)]
        simp [rs, paintRows]
      · rw [if_neg h2]
        by_cases h3 : (v.line.getD (v.pos.offset + lineno) dfltLine).dirty = true
        · rw [if_neg (by simpa using h3)]
          dsimp only
          have hdvl := draw_view_line_spec src hok v lineno (by omega)
          rw [if_neg (by simp [hdvl.1])]
          obtain ⟨hl, hp, hw, hh, hdg, hrf, hpt⟩ := rs_tuple_iff.mp hdvl.2
          have hdrf : dirtyRowsFrom (draw_view_line src v lineno).2 (lineno + 1) =
              dirtyRowsFrom v (lineno + 1) := by
            apply dirtyRowsFrom_congr _ _ hh hp
              (by rw [hl, clearLine_length]) (v.height + 1) (lineno + 1) (by omega)
            intro j hj
            rw [hl, hp]
            exact clearLine_getD_ne v.pos v.line lineno (by omega)
          have hrec := ih (draw_view_line src v lineno).2 (lineno + 1) true
            (by rw [hh]; omega)
          rw [dirtyRowsFrom_step_dirty v lineno h1 (by omega) h3]
          refine ⟨?_, ?_⟩
          · rw [hrec.1, hdrf]
            simp
          · rw [hrec.2, hdrf, hl, hp, hw, hh, hdg, hrf, hpt]
            have hpaint : paintRows v.pos (clearLine v.pos v.line lineno)
                (dirtyRowsFrom v (lineno + 1)) =
                paintRows v.pos v.line (lineno :: dirtyRowsFrom v (lineno + 1)) := rfl
            rw [hpaint]
            simp
        · rw [if_pos (by simpa using h3)]
          rw [dirtyRowsFrom_step_clean v lineno h1 (by omega) h3]
          exact ih v (lineno + 1) dirty (by omega)
    · rw [if_neg h1]
      rw [dirtyRowsFrom_stop v lineno (by omega)]
      simp [rs, paintRows]

/-- `redraw_view_dirty` paints exactly the dirty rows (top to bottom), leaves
everything else alone, and refreshes the terminal once exactly when some row
was repainted. -/
theorem redraw_view_dirty_spec (src : RowSource) (hok : srcOK src) (v : View) :
    (redraw_view_dirty src v).line = paintRows v.pos v.line (dirtyRows v) ∧
    (redraw_view_dirty src v).pos = v.pos ∧
    (redraw_view_dirty src v).width = v.width ∧
    (redraw_view_dirty src v).height = v.height ∧
    (redraw_view_dirty src v).digits = v.digits ∧
    (redraw_view_dirty src v).painted = v.painted ++ dirtyRows v ∧
    (redraw_view_dirty src v).refreshes =
      v.refreshes + (if dirtyRows v = [] then 0 else 1) := by
  have hloop := redraw_view_dirty_loop_spec src hok (v.height + 1) v 0 false
    (by omega)
  obtain ⟨hl, hp, hw, hh, hdg, hrf, hpt⟩ := rs_tuple_iff.mp hloop.2
  unfold redraw_view_dirty
  dsimp only
  rw [hloop.1]
  by_cases hd : dirtyRowsFrom v 0 = []
  · rw [if_pos (by simp [hd])]
    refine ⟨hl, hp, hw, hh, hdg, hpt, ?_⟩
    rw [hrf]
    have hd' : dirtyRows v = [] := hd
    rw [hd']
    simp
  · rw [if_neg (by simp [hd])]
    refine ⟨by simp [hl, dirtyRows], by simp [hp], by simp [hw], by simp [hh],
      by simp [hdg], by simp [hpt, dirtyRows], ?_⟩
    simp only [hrf]
    have hd' : ¬ (dirtyRows v = []) := hd
    rw [if_neg hd']

theorem decimal_length_pos (n : Nat) : 0 < (decimal n).length := by
  unfold decimal decimalAux
  split <;> simp

/-!
Concrete fixtures used by witnesses and counterexamples.
-/

/-- A 20-column, 5-row view with the cursor at the row origin. -/
def vFix : View :=
  { width := 20, height := 5, pos := { offset := 0, lineno := 0, col := 0 },
    col := 0, digits := 0, curtype := LineType.NONE, curlineSelected := false,
    line := [], win := [], refreshes := 0, painted := [] }

/-- A default configuration (tig's defaults, ascii graphics). -/
def cfgFix : Config :=
  { tab_size := 8, show_date := DateMode.short, show_author := AuthorMode.full,
    author_width := 0, show_id := true, id_width := 7,
    show_filename := FilenameMode.always, show_filename_width := 0,
    show_file_size := true, show_line_numbers := true, line_number_interval := 5,
    show_refs := true, line_graphics := GraphicsMode.ascii }

/-- A width-1 view whose row is already full (`col` at the clip bound). -/
def vFull : View :=
  { width := 1, height := 1, pos := { offset := 0, lineno := 0, col := 0 },
    col := 1, digits := 0, curtype := LineType.NONE, curlineSelected := false,
    line := [], win := [], refreshes := 0, painted := [] }

/-- A row with the given dirty flag. -/
def mkRow (d : Bool) : Line :=
  { type := LineType.DEFAULT, dirty := d, cleareol := false, selected := false }

/-- Five materialized rows with rows 1 and 3 dirty. -/
def v5dirty : View :=
  { width := 40, height := 5, pos := { offset := 0, lineno := 0, col := 0 },
    col := 0, digits := 0, curtype := LineType.NONE, curlineSelected := false,
    line := [mkRow false, mkRow true, mkRow false, mkRow true, mkRow false],
    win := [], refreshes := 0, painted := [] }

/-- A row source whose draw callback always reports the row drawn
(viewport-full signal `true`, as `view_columns_draw` does) and whose
callbacks leave the view's rows untouched. -/
def srcT : RowSource :=
  { draw := fun v _ _ => (true, v), select := fun v _ => v }

theorem srcT_ok : srcOK srcT :=
  ⟨fun _ _ _ => ⟨rfl, rfl⟩, fun _ _ => rfl⟩

/-- C1: a `draw_field` call with configured width `w` advances the column
cursor by exactly `w+1` cells whenever at least `w+1` cells remain in the
viewport — whatever the alignment, the trim flag, and the text (null,
shorter, or longer than the field) — and consumes at most the remaining
cells when fewer than `w+1` remain. -/
theorem c1_draw_field_column_span (v : View) (type : LineType)
    (text : Option (List Char)) (width : Nat) (align : Align) (trim : Bool) :
    ((width : Int) + 1 ≤ VIEW_MAX_LEN v →
      (draw_field v type text width align trim).2.col = v.col + (width + 1)) ∧
    (VIEW_MAX_LEN v < (width : Int) + 1 →
      ((draw_field v type text width align trim).2.col : Int) ≤
        (v.col : Int) + max (VIEW_MAX_LEN v) 0) := by
  have h := (draw_field_spec v type text width align trim).1
  constructor
  · intro hge
    rw [h]
    have hmx : min (VIEW_MAX_LEN v) ((width : Int) + 1) = (width : Int) + 1 :=
      min_eq_right hge
    rw [hmx]
    clear * -
    omega
  · intro hlt
    rw [h]
    clear * - hlt
    push_cast
    omega

/-- Witness for C1 at a concrete input: width 10 in a 20-column viewport. -/
theorem c1_witness :
    ((10 : Int) + 1 ≤ VIEW_MAX_LEN vFix) ∧
    (draw_field vFix LineType.DATE (some ['a', 'b', 'c']) 10 Align.LEFT
      false).2.col = vFix.col + (10 + 1) :=
  ⟨by decide,
   (c1_draw_field_column_span vFix LineType.DATE (some ['a', 'b', 'c']) 10
     Align.LEFT false).1 (by decide)⟩

/-- Counterexample to C2 as stated: on a row that is exactly full
(`col = width + pos.col`), `draw_graphic` with a separator still advances
the cursor, leaving it one cell past the clip bound `width + pos.col` —
the separator increment `view->col++` is unconditional in the source. -/
theorem c2_counterexample :
    vFull.col ≤ vFull.width + vFull.pos.col ∧
    (draw_graphic vFull LineType.DEFAULT [124] 1 true).2.col =
      vFull.width + vFull.pos.col + 1 := by
  constructor
  · decide
  · rfl

/-- C2 (amended): during a row render the column cursor is monotonically
non-decreasing under every clip-draw primitive; each primitive returns true
exactly when the cursor has reached **or exceeded** the bound
`width + pos.col`; the cursor stays within the bound provided the caller
clamps the budget to the remaining width (as every call site in draw.c
does), except that `draw_graphic` with a separator may advance one cell past
the bound. -/
theorem c2_amended_cursor_invariants (v : View) (type : LineType)
    (s : List Char) (ml : Int) (til : Bool) (max spaces : Int) (g : List Nat)
    (size : Nat) (sep : Bool) (text : Option (List Char)) (w : Nat) (al : Align)
    (trim : Bool) :
    (v.col ≤ (draw_chars v type s ml til).2.col ∧
     ((draw_chars v type s ml til).1 = true ↔
       v.width + v.pos.col ≤ (draw_chars v type s ml til).2.col) ∧
     (ml ≤ VIEW_MAX_LEN v → v.col ≤ v.width + v.pos.col →
       (draw_chars v type s ml til).2.col ≤ v.width + v.pos.col)) ∧
    (v.col ≤ (draw_space v type max spaces).2.col ∧
     ((draw_space v type max spaces).1 = true ↔
       v.width + v.pos.col ≤ (draw_space v type max spaces).2.col) ∧
     (min max spaces ≤ VIEW_MAX_LEN v → v.col ≤ v.width + v.pos.col →
       (draw_space v type max spaces).2.col ≤ v.width + v.pos.col)) ∧
    (v.col ≤ (draw_graphic v type g size sep).2.col ∧
     ((draw_graphic v type g size sep).1 = true ↔
       v.width + v.pos.col ≤ (draw_graphic v type g size sep).2.col) ∧
     (v.col ≤ v.width + v.pos.col →
       (draw_graphic v type g size sep).2.col ≤
         v.width + v.pos.col + (if sep then 1 else 0))) ∧
    (v.col ≤ (draw_field v type text w al trim).2.col ∧
     ((draw_field v type text w al trim).1 = true ↔
       VIEW_MAX_LEN v ≤ (w : Int) + 1) ∧
     (v.col ≤ v.width + v.pos.col →
       (draw_field v type text w al trim).2.col ≤ v.width + v.pos.col)) := by
  refine ⟨⟨?_, ?_, ?_⟩, ⟨?_, ?_, ?_⟩, ⟨?_, ?_, ?_⟩, ⟨?_, ?_, ?_⟩⟩
  · exact draw_chars_mono ..
  · rw [draw_chars_ret, decide_eq_true_iff,
      VIEW_MAX_LEN_of_rs (draw_chars_rs v type s ml til), sub_nonpos,
      ← Nat.cast_add, Nat.cast_le]
  · intro h1 h2
    have hcle := draw_chars_col_le v type s ml til
    by_cases hml : ml ≤ 0
    · rw [Int.toNat_of_nonpos hml, Nat.add_zero] at hcle
      exact hcle.trans h2
    · rw [← Int.toNat_of_nonneg (le_of_not_le hml)] at h1
      unfold VIEW_MAX_LEN at h1
      generalize ml.toNat = k at h1 hcle
      clear * - h1 hcle h2
      omega
  · exact (draw_space_mono ..).1
  · rw [draw_space_ret, decide_eq_true_iff,
      VIEW_MAX_LEN_of_rs (draw_space_rs v type max spaces), sub_nonpos,
      ← Nat.cast_add, Nat.cast_le]
  · intro h1 h2
    have hcle := (draw_space_mono v type max spaces).2
    by_cases hms : min max spaces ≤ 0
    · rw [Int.toNat_of_nonpos hms, Nat.add_zero] at hcle
      exact hcle.trans h2
    · rw [← Int.toNat_of_nonneg (le_of_not_le hms)] at h1
      unfold VIEW_MAX_LEN at h1
      generalize (min max spaces).toNat = k at h1 hcle
      clear * - h1 hcle h2
      omega
  · rw [draw_graphic_col]
    exact (Nat.le_add_right _ _).trans (Nat.le_add_right _ _)
  · rw [draw_graphic_ret, decide_eq_true_iff,
      VIEW_MAX_LEN_of_rs (draw_graphic_rs v type g size sep), sub_nonpos,
      ← Nat.cast_add, Nat.cast_le]
  · intro h2
    rw [draw_graphic_col]
    apply Nat.add_le_add_right
    split
    · unfold VIEW_MAX_LEN
      clear * - h2
      omega
    · next hc =>
        unfold VIEW_MAX_LEN at hc
        clear * - h2 hc
        omega
  · rw [(draw_field_spec v type text w al trim).1]
    exact Nat.le_add_right _ _
  · rw [(draw_field_spec v type text w al trim).2, decide_eq_true_iff]
  · intro h2
    rw [(draw_field_spec v type text w al trim).1]
    have hle : (min (VIEW_MAX_LEN v) ((w : Int) + 1)).toNat ≤
        (VIEW_MAX_LEN v).toNat := Int.toNat_le_toNat inf_le_left
    have hv : v.col + (VIEW_MAX_LEN v).toNat ≤ v.width + v.pos.col := by
      unfold VIEW_MAX_LEN
      clear * - h2
      omega
    exact le_trans (Nat.add_le_add_left hle _) hv

/-- Witness for the amended C2 at a concrete input: a clamped `draw_chars`
call stays within the bound and reports not-full. -/
theorem c2_witness :
    ((5 : Int) ≤ VIEW_MAX_LEN vFix ∧ vFix.col ≤ vFix.width + vFix.pos.col) ∧
    (draw_chars vFix LineType.DEFAULT ['a', 'b'] 5 true).2.col ≤
      vFix.width + vFix.pos.col :=
  ⟨⟨by decide, by decide⟩,
   (c2_amended_cursor_invariants vFix LineType.DEFAULT ['a', 'b'] 5 true 0 0 []
     0 false none 0 Align.LEFT false).1.2.2 (by decide) (by decide)⟩

/-- Counterexample to C5 as stated: with `max_len = 0` and a viewport that
still has room, `draw_chars` returns false, not true — the short-circuit
returns the current viewport-full status `VIEW_MAX_LEN <= 0`, not
unconditionally "full". -/
theorem c5_counterexample :
    (0 : Int) ≤ 0 ∧ (draw_chars vFix LineType.DEFAULT ['a'] 0 true).1 = false := by
  constructor
  · decide
  · rfl

/-- C5 (amended): for every view state and input text, `draw_chars` with
`max_len <= 0` writes nothing, leaves the whole view (including `view.col`)
unchanged, and returns the *current* viewport-full status, i.e. true exactly
when `VIEW_MAX_LEN <= 0` already held. -/
theorem c5_amended_max_len_nonpos (v : View) (type : LineType) (s : List Char)
    (ml : Int) (til : Bool) (h : ml ≤ 0) :
    draw_chars v type s ml til = (decide (VIEW_MAX_LEN v ≤ 0), v) :=
  draw_chars_nonpos v type s til h

/-- Witness for the amended C5 at a concrete input. -/
theorem c5_witness :
    (0 : Int) ≤ 0 ∧
    draw_chars vFix LineType.DEFAULT ['a'] 0 true =
      (decide (VIEW_MAX_LEN vFix ≤ 0), vFix) :=
  ⟨by decide, c5_amended_max_len_nonpos vFix LineType.DEFAULT ['a'] 0 true
    (by decide)⟩

/-- Counterexample to C3 as stated: with the standard dispatcher behaviour —
every repaint reports the viewport-full signal `true`, as `view_columns_draw`
always does — the scan does **not** stop at the first repaint: with rows 1
and 3 dirty it paints both rows and clears both dirty flags.  The loop in
the source stops early on a `false` return from `draw_view_line` (row not
drawn), the opposite polarity of the claim. -/
theorem c3_counterexample :
    (srcT.draw v5dirty (mkRow true) 1).1 = true ∧
    (redraw_view_dirty srcT v5dirty).painted = [1, 3] ∧ [1, 3] ≠ [1] ∧
    ((redraw_view_dirty srcT v5dirty).line.getD 3 dfltLine).dirty = false := by
  refine ⟨rfl, ?_, by decide, ?_⟩ <;> decide

/-- C3 (amended): for a row source whose draw callback reports every row as
drawn and whose callbacks leave the rows untouched (as `view_columns_draw`
based sources do), `redraw_view_dirty` scans top-to-bottom within the
visible, materialized rows, repaints exactly the dirty ones in ascending
order, clears their dirty (and cleareol) flags, leaves clean rows untouched,
and issues exactly one batched refresh when at least one row was repainted
and none otherwise.  (The scan would stop early only on a `false` —
row-not-drawn — result from `draw_view_line`, which such a source never
produces.) -/
theorem c3_redraw_view_dirty_scan (src : RowSource) (hok : srcOK src)
    (v : View) :
    (redraw_view_dirty src v).painted = v.painted ++ dirtyRows v ∧
    (dirtyRows v).Pairwise (· < ·) ∧
    (∀ i ∈ dirtyRows v,
      ((redraw_view_dirty src v).line.getD (v.pos.offset + i) dfltLine).dirty
        = false ∧
      ((redraw_view_dirty src v).line.getD (v.pos.offset + i) dfltLine).cleareol
        = false) ∧
    (∀ j : Nat, (∀ i ∈ dirtyRows v, v.pos.offset + i ≠ j) →
      (redraw_view_dirty src v).line.getD j dfltLine = v.line.getD j dfltLine) ∧
    (redraw_view_dirty src v).refreshes =
      v.refreshes + (if dirtyRows v = [] then 0 else 1) := by
  obtain ⟨hl, hp, hw, hh, hdg, hpt, hrf⟩ := redraw_view_dirty_spec src hok v
  have hsorted : (dirtyRows v).Pairwise (· < ·) :=
    dirtyRowsFrom_sorted v (v.height + 1) 0 (by omega)
  refine ⟨hpt, hsorted, ?_, ?_, hrf⟩
  · intro i hi
    have hm := dirtyRowsFrom_mem v (v.height + 1) 0 i (by omega) hi
    rw [hl, paintRows_getD_mem v.pos (dirtyRows v) v.line i hi hsorted hm.2.2.1]
    exact ⟨rfl, rfl⟩
  · intro j hj
    rw [hl, paintRows_getD_of_ne v.pos (dirtyRows v) v.line hj]

/-- Witness for the amended C3: the claim's own scenario — five rows with
rows 1 and 3 dirty. -/
theorem c3_witness :
    (redraw_view_dirty srcT v5dirty).painted = v5dirty.painted ++ dirtyRows v5dirty ∧
    (redraw_view_dirty srcT v5dirty).refreshes =
      v5dirty.refreshes + (if dirtyRows v5dirty = [] then 0 else 1) :=
  ⟨(c3_redraw_view_dirty_scan srcT srcT_ok v5dirty).1,
   (c3_redraw_view_dirty_scan srcT srcT_ok v5dirty).2.2.2.2⟩

/-- C4: drawing a non-empty canvas of `n` symbols in a viewport with enough
room advances the column cursor by exactly `1 + 2*(n-1)` glyph cells plus 1
trailing blank separator cell, identically under each of the three rendering
strategies (ascii, raw-graphic chtype, utf8). -/
theorem c4_graph_cell_count (cfg : Config) (v : View)
    (canvas : List GraphSymbol) (mode : GraphicsMode) (hne : canvas ≠ [])
    (hroom : ((2 * canvas.length : Nat) : Int) ≤ VIEW_MAX_LEN v) :
    (draw_graph { cfg with line_graphics := mode } v canvas).2.col =
      v.col + (1 + 2 * (canvas.length - 1) + 1) :=
  (draw_graph_spec { cfg with line_graphics := mode } v canvas hne hroom).1

/-- A three-symbol canvas (one commit node, two lane connectors). -/
def canvas3 : List GraphSymbol :=
  [{ commit := true, color := 0 }, { commit := false, color := 1 },
   { commit := false, color := 2 }]

/-- Witness for C4: a canvas of 3 symbols consumes `1 + 2 + 2 = 5` glyph
cells plus 1 trailing blank under all three strategies. -/
theorem c4_witness :
    (canvas3 ≠ [] ∧ ((2 * canvas3.length : Nat) : Int) ≤ VIEW_MAX_LEN vFix) ∧
    (draw_graph { cfgFix with line_graphics := GraphicsMode.ascii } vFix
      canvas3).2.col = vFix.col + (1 + 2 * (canvas3.length - 1) + 1) ∧
    (draw_graph { cfgFix with line_graphics := GraphicsMode.chtype } vFix
      canvas3).2.col = vFix.col + (1 + 2 * (canvas3.length - 1) + 1) ∧
    (draw_graph { cfgFix with line_graphics := GraphicsMode.utf8 } vFix
      canvas3).2.col = vFix.col + (1 + 2 * (canvas3.length - 1) + 1) :=
  ⟨⟨by decide, by decide⟩,
   c4_graph_cell_count cfgFix vFix canvas3 GraphicsMode.ascii (by decide)
     (by decide),
   c4_graph_cell_count cfgFix vFix canvas3 GraphicsMode.chtype (by decide)
     (by decide),
   c4_graph_cell_count cfgFix vFix canvas3 GraphicsMode.utf8 (by decide)
     (by decide)⟩

/-- C6: `draw_field` with `ALIGN_RIGHT`, width 10 and a text of display
width 4, in a viewport with at least the reserved `10+1` columns remaining
(and no pending horizontal skip), reserves an 11-column span: it draws
`leftpad = 11 - 4 - 1 = 6` leading blank cells, then the 4-cell text, then
exactly enough trailing blanks (one) that the cursor advances by the full
11-column span. -/
theorem c6_right_alignment (v : View) (type : LineType) (text : List Char)
    (trim : Bool) (hskip : v.pos.col ≤ v.col) (hroom : (11 : Int) ≤ VIEW_MAX_LEN v)
    (hlen : text.length = 4) :
    (draw_field v type (some text) 10 Align.RIGHT trim).2.col = v.col + 11 ∧
    (draw_field v type (some text) 10 Align.RIGHT trim).2.win =
      v.win ++ (List.replicate 6 (Cell.ch type ' ') ++ text.map (Cell.ch type) ++
        [Cell.ch LineType.DEFAULT ' ']) := by
  have hmx : min (VIEW_MAX_LEN v) (((10 : Nat) : Int) + 1) = 11 := by
    rw [show (((10 : Nat) : Int) + 1) = 11 by norm_num]
    exact min_eq_right hroom
  constructor
  · rw [(draw_field_spec v type (some text) 10 Align.RIGHT trim).1]
    rw [hmx]
    rfl
  · unfold draw_field
    dsimp only
    rw [if_pos rfl]
    rw [hmx]
    have htl : utf8_width_max text 11 = 4 := by
      unfold utf8_width_max
      rw [hlen]
      norm_num
    rw [htl]
    have hlp6 : (11 : Int) - 4 - 1 = 6 := by norm_num
    rw [hlp6]
    rw [if_pos (by norm_num : (0 : Int) < 6)]
    have hsp := @draw_space_spec v type ((6 : Int)) ((6 : Int))
      (by rw [min_self]; exact le_trans (by decide) hroom)
    rw [min_self] at hsp
    have h6 : ((6 : Int)).toNat = 6 := rfl
    rw [h6] at hsp
    have hret : (draw_space v type 6 6).1 = false := by
      rw [hsp.2.1, decide_eq_false_iff_not]
      exact not_le.mpr (lt_of_lt_of_le (by decide) hroom)
    rw [if_neg (by simp [hret])]
    rw [h6]
    obtain ⟨hsl, hsps, hsw, hsh, hsd, hsr, hspt⟩ :=
      rs_eq_iff.mp (draw_space_rs v type 6 6)
    have hskip1 : (draw_space v type 6 6).2.pos.col ≤ (draw_space v type 6 6).2.col := by
      rw [hsps, hsp.1]
      exact hskip.trans (Nat.le_add_right _ _)
    unfold draw_field_tail
    dsimp only
    have h54 : (11 : Int) - 6 - 1 = 4 := by norm_num
    rw [h54]
    have hcol2 := draw_chars_col (draw_space v type 6 6).2 type text 4 trim
    rw [charsAdv_fits _ text trim (by norm_num) (by rw [hlen]; rfl), hlen] at hcol2
    have hwin2 := draw_chars_win (draw_space v type 6 6).2 type text 4 trim
    rw [charsDelta_fits _ type text trim (by norm_num) (by rw [hlen]; rfl) hskip1]
      at hwin2
    obtain ⟨hcl, hcps, hcw, hch, hcd, hcr, hcpt⟩ :=
      rs_eq_iff.mp (draw_chars_rs (draw_space v type 6 6).2 type text 4 trim)
    have hml2 : VIEW_MAX_LEN (draw_chars (draw_space v type 6 6).2 type text 4
        trim).2 = VIEW_MAX_LEN v - 10 := by
      unfold VIEW_MAX_LEN
      rw [hcol2, hsp.1, hcw, hsw, hcps, hsps]
      push_cast
      ring
    have hret2 : (draw_chars (draw_space v type 6 6).2 type text 4 trim).1 =
        false := by
      rw [draw_chars_ret, decide_eq_false_iff_not, hml2]
      exact not_le.mpr (sub_pos.mpr (lt_of_lt_of_le (by decide) hroom))
    rw [if_neg (by simp [hret2])]
    have hskip2 : (draw_chars (draw_space v type 6 6).2 type text 4 trim).2.pos.col ≤
        (draw_chars (draw_space v type 6 6).2 type text 4 trim).2.col := by
      rw [hcps, hsps, hcol2, hsp.1]
      exact hskip.trans ((Nat.le_add_right _ _).trans (Nat.le_add_right _ _))
    have hmin : min ((11 - 6 : Int) -
        (((draw_chars (draw_space v type 6 6).2 type text 4 trim).2.col : Int) -
          ((v.col + 6 : Nat) : Int))) (11 - 6 : Int) = 1 := by
      rw [hcol2, hsp.1]
      have e1 : ((11 : Int) - 6) - ((((v.col + 6 + 4 : Nat)) : Int) -
          (((v.col + 6 : Nat)) : Int)) = 1 := by
        push_cast
        ring
      rw [e1]
      decide
    have hfin := @draw_space_spec
      (draw_chars (draw_space v type 6 6).2 type text 4 trim).2 LineType.DEFAULT
      ((11 - 6 : Int) -
        (((draw_chars (draw_space v type 6 6).2 type text 4 trim).2.col : Int) -
          ((v.col + 6 : Nat) : Int)))
      ((11 - 6 : Int)) (by rw [hmin, hml2]; clear * - hroom; omega)
    rw [hfin.2.2 hskip2, hmin]
    rw [hwin2, hsp.2.2 hskip]
    simp [List.append_assoc]

/-- Witness for C6 at a concrete input. -/
theorem c6_witness :
    (vFix.pos.col ≤ vFix.col ∧ (11 : Int) ≤ VIEW_MAX_LEN vFix ∧
      (['w', 'x', 'y', 'z'] : List Char).length = 4) ∧
    (draw_field vFix LineType.FILE_SIZE (some ['w', 'x', 'y', 'z']) 10
      Align.RIGHT false).2.col = vFix.col + 11 ∧
    (draw_field vFix LineType.FILE_SIZE (some ['w', 'x', 'y', 'z']) 10
      Align.RIGHT false).2.win =
      vFix.win ++ (List.replicate 6 (Cell.ch LineType.FILE_SIZE ' ') ++
        (['w', 'x', 'y', 'z'] : List Char).map (Cell.ch LineType.FILE_SIZE) ++
        [Cell.ch LineType.DEFAULT ' ']) :=
  ⟨⟨by decide, by decide, by decide⟩,
   (c6_right_alignment vFix LineType.FILE_SIZE ['w', 'x', 'y', 'z'] false
     (by decide) (by decide) (by decide)).1,
   (c6_right_alignment vFix LineType.FILE_SIZE ['w', 'x', 'y', 'z'] false
     (by decide) (by decide) (by decide)).2⟩

theorem draw_graphic_sep_one (u : View) (t : LineType) (sepc : Nat)
    (hskip : u.pos.col ≤ u.col) (hroom : (2 : Int) ≤ VIEW_MAX_LEN u) :
    (draw_graphic u t [sepc] 1 true).2.win =
      u.win ++ [Cell.graph t sepc, Cell.ch t ' '] ∧
    (draw_graphic u t [sepc] 1 true).2.col = u.col + 2 := by
  unfold draw_graphic
  dsimp only
  have hsk : (if u.pos.col > u.col then u.pos.col - u.col else 0) = 0 := by
    split <;> omega
  rw [hsk]
  have hc : ¬ (0 ≤ VIEW_MAX_LEN u ∧ VIEW_MAX_LEN u < ((1 : Nat) : Int)) := by
    push_neg
    intro h
    omega
  rw [if_neg hc]
  have hsw : ((if VIEW_MAX_LEN u < 0 then true
      else decide (((1 : Nat) : Int) < VIEW_MAX_LEN u)) && decide (0 ≤ 1)) = true := by
    rw [if_neg (by omega : ¬ VIEW_MAX_LEN u < 0)]
    simp only [Bool.and_eq_true, decide_eq_true_eq]
    constructor
    · push_cast
      omega
    · omega
  rw [hsw]
  simp

/-- Counterexample to C7 as stated: with configured digit width 0 (≤ 9), the
numeric field is 3 wide and line number 1 is rendered as `"  1"` —
left-padded with **spaces**, not zeros (the source builds the format
`"%3d"`, not `"%03d"`). -/
theorem c7_counterexample :
    (draw_lineno_custom cfgFix vFix 1 true 5).2.win =
      [Cell.ch LineType.LINE_NUMBER ' ', Cell.ch LineType.LINE_NUMBER ' ',
       Cell.ch LineType.LINE_NUMBER '1', Cell.graph LineType.DEFAULT 124,
       Cell.ch LineType.DEFAULT ' '] ∧
    (Cell.ch LineType.LINE_NUMBER ' ' ≠ Cell.ch LineType.LINE_NUMBER '0') := by
  constructor
  · decide
  · decide

/-- C7 (amended): in `draw_lineno_custom` the numeric field width is
`max(3, view.digits)`; on a line where a number is rendered it is left-padded
with **blanks** (spaces) to that width exactly when the configured digit
width is ≤ 9 (format `"%<width>d"`), and when the digit width exceeds 9 the
number is drawn unpadded with the single-leading-digit format `"%1d"`; one
separator graphic cell and one blank follow. -/
theorem c7_amended_lineno_padding (cfg : Config) (v : View)
    (lineno interval : Nat) (hcad : lineno = 1 ∨ lineno % interval = 0)
    (hskip : v.pos.col ≤ v.col)
    (hfit : (decimal lineno).length ≤ (if v.digits < 3 then 3 else v.digits))
    (hfit9 : (decimal lineno).length ≤ 9)
    (hroom : (((if v.digits < 3 then 3 else v.digits) : Nat) : Int) + 2 ≤
      VIEW_MAX_LEN v) :
    (v.digits ≤ 9 →
      (draw_lineno_custom cfg v lineno true interval).2.win =
        v.win ++ (List.replicate ((if v.digits < 3 then 3 else v.digits) -
            (decimal lineno).length) ' ' ++ decimal lineno).map
          (Cell.ch LineType.LINE_NUMBER) ++
        [Cell.graph LineType.DEFAULT
          (if cfg.line_graphics ≠ GraphicsMode.ascii then ACS_VLINE else 124),
         Cell.ch LineType.DEFAULT ' '] ∧
      (draw_lineno_custom cfg v lineno true interval).2.col =
        v.col + (if v.digits < 3 then 3 else v.digits) + 2) ∧
    (9 < v.digits →
      (draw_lineno_custom cfg v lineno true interval).2.win =
        v.win ++ (decimal lineno).map (Cell.ch LineType.LINE_NUMBER) ++
        [Cell.graph LineType.DEFAULT
          (if cfg.line_graphics ≠ GraphicsMode.ascii then ACS_VLINE else 124),
         Cell.ch LineType.DEFAULT ' '] ∧
      (draw_lineno_custom cfg v lineno true interval).2.col =
        v.col + (decimal lineno).length + 2) := by
  have hlp := decimal_length_pos lineno
  set D := (if v.digits < 3 then 3 else v.digits) with hD
  have hd3 : 3 ≤ D := by rw [hD]; split <;> omega
  unfold draw_lineno_custom
  rw [← hD]
  dsimp only
  rw [if_neg (by simp)]
  rw [if_pos hcad]
  clear hcad
  have hmax : min (VIEW_MAX_LEN v) ((D : Nat) : Int) = ((D : Nat) : Int) :=
    min_eq_right ((le_add_of_nonneg_right (by decide : (0 : Int) ≤ 2)).trans hroom)
  rw [hmax]
  clear hmax
  constructor
  · intro h9
    rw [if_pos h9]
    have hpl : (List.replicate (D - (decimal lineno).length) ' ' ++
        decimal lineno).length = D := by
      simp only [List.length_append, List.length_replicate]
      exact Nat.sub_add_cancel hfit
    have hsf : string_format 10 D lineno =
        some (List.replicate (D - (decimal lineno).length) ' ' ++
          decimal lineno) := by
      unfold string_format
      dsimp only
      rw [if_pos (by rw [hpl]; rw [hD]; clear * - h9; split <;> omega)]
    rw [hsf]
    dsimp only
    set P := List.replicate (D - (decimal lineno).length) ' ' ++ decimal lineno
      with hP
    clear hsf
    have hfits : P.length ≤ (((D : Nat) : Int)).toNat := by
      rw [hpl, Int.toNat_natCast]
    have hDpos : (0 : Int) < ((D : Nat) : Int) :=
      Int.natCast_pos.mpr (Nat.lt_of_lt_of_le (by decide) hd3)
    have hcol1 := draw_chars_col v LineType.LINE_NUMBER P ((D : Nat) : Int) true
    rw [@charsAdv_fits v P (((D : Nat) : Int)) true hDpos hfits,
      hpl] at hcol1
    have hwin1 := draw_chars_win v LineType.LINE_NUMBER P ((D : Nat) : Int) true
    rw [@charsDelta_fits v LineType.LINE_NUMBER P
      (((D : Nat) : Int)) true hDpos hfits hskip] at hwin1
    obtain ⟨hnl, hnp, hnw, hnh, hnd, hnr, hnpt⟩ := rs_eq_iff.mp
      (draw_chars_rs v LineType.LINE_NUMBER P ((D : Nat) : Int) true)
    have hskip1 : (draw_chars v LineType.LINE_NUMBER P
        ((D : Nat) : Int) true).2.pos.col ≤
        (draw_chars v LineType.LINE_NUMBER P ((D : Nat) : Int) true).2.col := by
      rw [hnp, hcol1]
      exact hskip.trans (le_add_of_nonneg_right (Nat.zero_le _))
    have hroom1 : (2 : Int) ≤ VIEW_MAX_LEN (draw_chars v LineType.LINE_NUMBER P
        ((D : Nat) : Int) true).2 := by
      have hroomx := hroom
      unfold VIEW_MAX_LEN at hroomx ⊢
      rw [hnw, hnp, hcol1]
      clear * - hroomx
      push_cast
      omega
    have hg := draw_graphic_sep_one _ LineType.DEFAULT
      (if cfg.line_graphics ≠ GraphicsMode.ascii then ACS_VLINE else 124)
      hskip1 hroom1
    rw [hg.1, hg.2, hcol1, hwin1]
    constructor
    · simp [List.append_assoc]
    · clear * -
      omega
  · intro h9
    rw [if_neg (by clear * - h9; omega)]
    have h1l : 1 - (decimal lineno).length = 0 := Nat.sub_eq_zero_of_le hlp
    have hsf : string_format 10 1 lineno = some (decimal lineno) := by
      unfold string_format
      dsimp only
      rw [h1l]
      simp only [List.replicate_zero, List.nil_append]
      rw [if_pos (by clear * - hfit9 hlp; omega)]
    rw [hsf]
    dsimp only
    clear hsf h1l
    have hfits : (decimal lineno).length ≤ (((D : Nat) : Int)).toNat := by
      rw [Int.toNat_natCast]
      exact hfit
    have hDpos : (0 : Int) < ((D : Nat) : Int) :=
      Int.natCast_pos.mpr (Nat.lt_of_lt_of_le (by decide) hd3)
    have hcol1 := draw_chars_col v LineType.LINE_NUMBER (decimal lineno)
      ((D : Nat) : Int) true
    rw [@charsAdv_fits v (decimal lineno) (((D : Nat) : Int)) true
      hDpos hfits] at hcol1
    have hwin1 := draw_chars_win v LineType.LINE_NUMBER (decimal lineno)
      ((D : Nat) : Int) true
    rw [@charsDelta_fits v LineType.LINE_NUMBER (decimal lineno)
      (((D : Nat) : Int)) true hDpos hfits hskip] at hwin1
    obtain ⟨hnl, hnp, hnw, hnh, hnd, hnr, hnpt⟩ := rs_eq_iff.mp
      (draw_chars_rs v LineType.LINE_NUMBER (decimal lineno)
        ((D : Nat) : Int) true)
    have hskip1 : (draw_chars v LineType.LINE_NUMBER (decimal lineno)
        ((D : Nat) : Int) true).2.pos.col ≤
        (draw_chars v LineType.LINE_NUMBER (decimal lineno)
          ((D : Nat) : Int) true).2.col := by
      rw [hnp, hcol1]
      exact hskip.trans (le_add_of_nonneg_right (Nat.zero_le _))
    have hroom1 : (2 : Int) ≤ VIEW_MAX_LEN (draw_chars v LineType.LINE_NUMBER
        (decimal lineno) ((D : Nat) : Int) true).2 := by
      have hroomx := hroom
      unfold VIEW_MAX_LEN at hroomx ⊢
      rw [hnw, hnp, hcol1]
      clear * - hroomx hfit
      push_cast
      omega
    have hg := draw_graphic_sep_one _ LineType.DEFAULT
      (if cfg.line_graphics ≠ GraphicsMode.ascii then ACS_VLINE else 124)
      hskip1 hroom1
    rw [hg.1, hg.2, hcol1, hwin1]
    constructor
    · simp [List.append_assoc]
    · clear * -
      omega

/-- Witness for the amended C7: digit width 12 (> 9), line number 120 at
interval 5, rendered unpadded. -/
theorem c7_witness :
    ((120 = 1 ∨ 120 % 5 = 0) ∧ (decimal 120).length ≤ 12 ∧
      (decimal 120).length ≤ 9) ∧
    (draw_lineno_custom cfgFix
      { vFix with width := 30, digits := 12 } 120 true 5).2.win =
      { vFix with width := 30, digits := 12 }.win ++
        (decimal 120).map (Cell.ch LineType.LINE_NUMBER) ++
        [Cell.graph LineType.DEFAULT 124, Cell.ch LineType.DEFAULT ' '] := by
  refine ⟨⟨by decide, by decide, by decide⟩, ?_⟩
  have h := (c7_amended_lineno_padding cfgFix
    { vFix with width := 30, digits := 12 } 120 5 (by decide) (by decide)
    (by decide) (by decide) (by decide)).2 (by decide)
  simpa using h.1

/-- C8: `view_columns_draw` returns true on every call — both when the
row-source's `get_columns` callback fails and when every configured column is
drawn to completion — so the per-row draw pipeline built on it never reports
a "row not filled" (false) result to the scheduler, for any row or column
configuration. -/
theorem c8_view_columns_draw_always_true (cfg : Config) (ops : ViewOps)
    (v : View) (line : Line) (lineno : Nat) :
    (view_columns_draw cfg ops v line lineno).1 = true := by
  unfold view_columns_draw
  split
  · rfl
  · exact view_columns_draw_loop_true ..

/-- C9: `draw_view_line` clears the row's `dirty`, `cleareol` and `selected`
flags before invoking the row-source's draw callback, so with the standard
column-dispatcher callback the flags are cleared (and `selected` re-set only
for the cursor row) even when the `get_columns` lookup fails and the row's
cells are left unpainted; such a row is skipped by a later dirty scan unless
a collaborator re-marks it dirty (the selection hook is assumed not to touch
rows or cells). -/
theorem c9_draw_view_line_clears_flags (cfg : Config) (ops : ViewOps)
    (selectFn : View → Line → View) (hsel : ∀ u l, rs (selectFn u l) = rs u)
    (hselw : ∀ u l, (selectFn u l).win = u.win) (v : View) (lineno : Nat)
    (h : v.pos.offset + lineno < v.line.length) :
    let src : RowSource :=
      { draw := fun u l n => view_columns_draw cfg ops u l n, select := selectFn }
    (((draw_view_line src v lineno).2.line.getD (v.pos.offset + lineno)
      dfltLine).dirty = false ∧
     ((draw_view_line src v lineno).2.line.getD (v.pos.offset + lineno)
      dfltLine).cleareol = false ∧
     ((draw_view_line src v lineno).2.line.getD (v.pos.offset + lineno)
      dfltLine).selected =
        decide (v.pos.offset + lineno = v.pos.lineno)) ∧
    ((∀ u l, ops.get_columns u l = none) →
      (draw_view_line src v lineno).2.win = v.win) ∧
    (∀ src2 : RowSource, srcOK src2 →
      (redraw_view_dirty src2 (draw_view_line src v lineno).2).painted =
        (draw_view_line src v lineno).2.painted ++
          dirtyRows (draw_view_line src v lineno).2 ∧
      lineno ∉ dirtyRows (draw_view_line src v lineno).2) := by
  intro src
  have hok : srcOK src := by
    refine ⟨fun u l n => ⟨?_, ?_⟩, hsel⟩
    · show (view_columns_draw cfg ops u l n).1 = true
      unfold view_columns_draw
      split
      · rfl
      · exact view_columns_draw_loop_true ..
    · exact view_columns_draw_rs ..
  have hdvl := draw_view_line_spec src hok v lineno h
  obtain ⟨hl, hp, hw, hh, hdg, hrf, hpt⟩ := rs_tuple_iff.mp hdvl.2
  have hget : (draw_view_line src v lineno).2.line.getD (v.pos.offset + lineno)
      dfltLine =
      { (v.line.getD (v.pos.offset + lineno) dfltLine) with
        selected := decide (v.pos.offset + lineno = v.pos.lineno),
        dirty := false, cleareol := false } := by
    rw [hl]
    unfold clearLine
    exact getD_set_self _ _ _ h
  refine ⟨⟨by rw [hget], by rw [hget], by rw [hget]⟩, ?_, ?_⟩
  · intro hg
    unfold draw_view_line
    rw [if_neg (by omega)]
    dsimp only
    have hvc : ∀ (u : View) (l : Line) (n : Nat),
        (view_columns_draw cfg ops u l n).2.win = u.win := by
      intro u l n
      unfold view_columns_draw
      rw [hg u l]
    split
    · rw [hvc, hselw]
      simp
    · rw [hvc]
  · intro src2 hok2
    refine ⟨(redraw_view_dirty_spec src2 hok2 _).2.2.2.2.2.1, ?_⟩
    intro hmem
    have hm := dirtyRowsFrom_mem (draw_view_line src v lineno).2
      ((draw_view_line src v lineno).2.height + 1) 0 lineno (by omega) hmem
    have hdirty := hm.2.2.2
    rw [hp, hget] at hdirty
    simp at hdirty

/-- Witness for C9 at a concrete input: a one-row view whose `get_columns`
always fails. -/
theorem c9_witness :
    (v5dirty.pos.offset + 1 < v5dirty.line.length) ∧
    ((draw_view_line
      { draw := fun u l n => view_columns_draw cfgFix
          { get_columns := fun _ _ => none, columns := [] } u l n,
        select := fun u _ => u } v5dirty 1).2.line.getD
      (v5dirty.pos.offset + 1) dfltLine).dirty = false ∧
    (draw_view_line
      { draw := fun u l n => view_columns_draw cfgFix
          { get_columns := fun _ _ => none, columns := [] } u l n,
        select := fun u _ => u } v5dirty 1).2.win = v5dirty.win :=
  ⟨by decide,
   ((c9_draw_view_line_clears_flags cfgFix
      { get_columns := fun _ _ => none, columns := [] } (fun u _ => u)
      (fun _ _ => rfl) (fun _ _ => rfl) v5dirty 1 (by decide)).1).1,
   ((c9_draw_view_line_clears_flags cfgFix
      { get_columns := fun _ _ => none, columns := [] } (fun u _ => u)
      (fun _ _ => rfl) (fun _ _ => rfl) v5dirty 1 (by decide)).2).1
     (fun _ _ => rfl)⟩

/-- C10: `draw_text_expanded` terminates for every input string: each
`string_expand` call consumes at least one source character when the
remaining string is non-empty, so every loop iteration either returns on the
viewport-full signal or strictly shortens the remaining suffix; fuel
`length + 1` always suffices. -/
theorem c10_draw_text_expanded_terminates (cfg : Config) :
    (∀ (tab : Nat) (s : List Char), s ≠ [] →
      1 ≤ (string_expand SIZEOF_STR tab s).2) ∧
    (∀ (v : View) (type : LineType) (s : List Char) (ml : Int) (til : Bool),
      (draw_text_expanded cfg v type s ml til (s.length + 1)).isSome = true) := by
  constructor
  · intro tab s hne
    exact string_expand_consumes SIZEOF_STR tab s hne (by unfold SIZEOF_STR; omega)
  · intro v type s ml til
    exact draw_text_expanded_total cfg type ml til (s.length + 1) s (le_refl _) v

/-- Witness for C10 at a concrete input (a string containing a tab). -/
theorem c10_witness :
    (['a'] : List Char) ≠ [] ∧
    1 ≤ (string_expand SIZEOF_STR 8 ['a']).2 ∧
    (draw_text_expanded cfgFix vFix LineType.DEFAULT ['a', '\t', 'b'] 20 true
      ((['a', '\t', 'b'] : List Char).length + 1)).isSome = true :=
  ⟨by decide,
   (c10_draw_text_expanded_terminates cfgFix).1 8 ['a'] (by decide),
   (c10_draw_text_expanded_terminates cfgFix).2 vFix LineType.DEFAULT
     ['a', '\t', 'b'] 20 true⟩

end Tig
